import Mathlib

/-!
Verification of the Frontier SQL indexer backend
(`client/db/src/sql/mod.rs`): a shallow embedding of its data model
(tables `blocks`, `transactions`, `logs`, `sync_status`), of its write
operations (`canonicalize`, `insert_block_metadata`,
`insert_genesis_block_metadata`, `index_pending_block_logs`) and of its
read operations (`block_hash`, `transaction_metadata`, `filter_logs`,
`build_query`), together with proofs about them.

Hashes and addresses are modelled as natural-number identifiers except
where byte-level behaviour matters (`H256::from_slice`, SCALE decoding),
where they are lists of bytes.  SQLite integer columns are `Int`;
the `u64 -> i64` and `u32 -> i32` casts of the source are modelled
explicitly.
-/

set_option maxHeartbeats 1000000
set_option maxRecDepth 100000

namespace FrontierSql

/-- Opaque 32-byte hash identifier (`H256`). -/
abbrev Hash := Nat

/-- Opaque 20-byte address identifier (`H160`). -/
abbrev Addr := Nat

/-- The Rust cast `u64 as i64` (two's-complement wrap), applied by
`build_query` to `from_block` and `to_block` before binding them. -/
def u64AsI64 (n : Nat) : Int :=
  if n % 2 ^ 64 < 2 ^ 63 then ((n % 2 ^ 64 : Nat) : Int)
  else ((n % 2 ^ 64 : Nat) : Int) - 2 ^ 64

/-- The source's block-number conversion
`UniqueSaturatedInto::<u32>::unique_saturated_into(header_number) as i32`:
saturate to `u32`, then reinterpret as `i32`. -/
def u32SatAsI32 (n : Nat) : Int :=
  let m := min n (2 ^ 32 - 1)
  if m < 2 ^ 31 then (m : Int) else (m : Int) - 2 ^ 32

/-- A row of the `blocks` table.  `ethereum_storage_schema` holds the
SCALE-encoded schema bytes.  Row uniqueness is on
`(ethereum_block_hash, substrate_block_hash)`. -/
structure BlockRow where
  block_number : Int
  ethereum_block_hash : Hash
  substrate_block_hash : Hash
  ethereum_storage_schema : List Nat
  is_canon : Int
deriving DecidableEq, Repr

/-- A row of the `transactions` table; unique on
`(ethereum_transaction_hash, substrate_block_hash)`. -/
structure TxRow where
  ethereum_transaction_hash : Hash
  substrate_block_hash : Hash
  ethereum_block_hash : Hash
  ethereum_transaction_index : Int
deriving DecidableEq, Repr

/-- A row of the `logs` table; unique on
`(log_index, transaction_index, substrate_block_hash)`. -/
structure LogRow where
  address : Addr
  topic_1 : Hash
  topic_2 : Hash
  topic_3 : Hash
  topic_4 : Hash
  log_index : Int
  transaction_index : Int
  substrate_block_hash : Hash
deriving DecidableEq, Repr

/-- A row of the `sync_status` table; unique on `substrate_block_hash`;
`status` is 0 (pending) or 1 (claimed). -/
structure SyncRow where
  substrate_block_hash : Hash
  status : Int
deriving DecidableEq, Repr

/-- The whole SQLite store: the four tables created by
`create_database_if_not_exists`. -/
structure Store where
  blocks : List BlockRow
  transactions : List TxRow
  logs : List LogRow
  sync_status : List SyncRow
deriving DecidableEq, Repr

/-- The empty store, as created on a fresh database file. -/
def Store.empty : Store := ⟨[], [], [], []⟩

/-! ### canonicalize

`Backend::canonicalize(retracted, enacted)` runs, inside one
transaction, first
`UPDATE blocks SET is_canon = 0 WHERE substrate_block_hash IN retracted`
and then
`UPDATE blocks SET is_canon = 1 WHERE substrate_block_hash IN enacted`. -/

/-- Effect of the two sequential `UPDATE` statements on the `blocks`
rows: the retract update first, the enact update second. -/
def canonicalizeBlocks (retracted enacted : List Hash) (rows : List BlockRow) : List BlockRow :=
  (rows.map fun r =>
      if r.substrate_block_hash ∈ retracted then { r with is_canon := 0 } else r).map
    fun r =>
      if r.substrate_block_hash ∈ enacted then { r with is_canon := 1 } else r

/-- `Backend::canonicalize`: the transaction touches only `blocks`. -/
def canonicalize (retracted enacted : List Hash) (s : Store) : Store :=
  { s with blocks := canonicalizeBlocks retracted enacted s.blocks }

/-! ### filter_logs: topic-row normalization

`filter_logs` first folds the request's `topics` rows into
`unique_topics: [HashSet<H256>; 4]`, returning
`Err("Invalid topic input. Maximum length is 4.")` as soon as a row
index reaches `MAX_TOPIC_COUNT = 4`. -/

/-- `HashSet::insert`: inserting an element already present has no
effect. -/
def hsInsert (x : Hash) (s : List Hash) : List Hash :=
  if x ∈ s then s else x :: s

/-- The `[HashSet<H256>; 4]` accumulator `unique_topics`. -/
structure TopicSets where
  t1 : List Hash
  t2 : List Hash
  t3 : List Hash
  t4 : List Hash
deriving DecidableEq, Repr

/-- The initial accumulator: four empty sets. -/
def TopicSets.empty : TopicSets := ⟨[], [], [], []⟩

/-- `unique_topics[j]` (positions beyond 3 never occur). -/
def TopicSets.get (t : TopicSets) : Nat → List Hash
  | 0 => t.t1
  | 1 => t.t2
  | 2 => t.t3
  | _ => t.t4

/-- `unique_topics[i].insert(h)`. -/
def TopicSets.insertAt (t : TopicSets) (i : Nat) (h : Hash) : TopicSets :=
  match i with
  | 0 => { t with t1 := hsInsert h t.t1 }
  | 1 => { t with t2 := hsInsert h t.t2 }
  | 2 => { t with t3 := hsInsert h t.t3 }
  | _ => { t with t4 := hsInsert h t.t4 }

/-- The error text returned when a topic row reaches a fifth position. -/
def invalidTopicMsg : String := "Invalid topic input. Maximum length is 4."

/-- The inner loop of `filter_logs` over one topic row
(`topic_combination.into_iter().enumerate()` starting at index `i`):
reaching index `MAX_TOPIC_COUNT = 4` aborts; `Some(h)` is inserted into
the positional set; `None` is a wildcard. -/
def addTopicRow (t : TopicSets) (i : Nat) : List (Option Hash) → Except String TopicSets
  | [] => .ok t
  | topic :: rest =>
    if i = 4 then .error invalidTopicMsg
    else
      match topic with
      | some h => addTopicRow (t.insertAt i h) (i + 1) rest
      | none => addTopicRow t (i + 1) rest

/-- The outer loop of `filter_logs` over all topic rows. -/
def normalizeTopics (topics : List (List (Option Hash))) : Except String TopicSets :=
  topics.foldlM (fun t row => addTopicRow t 0 row) TopicSets.empty

/-! ### filter_logs: denotation of the built query

`build_query` emits, for each positional topic set, no clause when the
set is empty, `l.topic_i = ?` when it is a singleton and
`l.topic_i IN (...)` otherwise; an `l.address IN (...)` clause only when
the address list is non-empty; and always the join conditions
`b.block_number BETWEEN ? AND ?` (bound as `i64`),
`b.substrate_block_hash = l.substrate_block_hash` and `b.is_canon = 1`,
a `GROUP BY (l.substrate_block_hash, l.transaction_index, l.log_index)`,
an `ORDER BY (b.block_number, l.transaction_index, l.log_index) ASC` and
a `LIMIT 10001`. -/

/-- Truth of the topic clause emitted for one positional set. -/
def matchesTopic (tset : List Hash) (topic : Hash) : Bool :=
  match tset with
  | [] => true
  | [x] => topic == x
  | _ => tset.contains topic

/-- The log's positional topic column (`l.topic_1` .. `l.topic_4`). -/
def logTopic (l : LogRow) : Nat → Hash
  | 0 => l.topic_1
  | 1 => l.topic_2
  | 2 => l.topic_3
  | _ => l.topic_4

/-- The conjunction of the built statement's ON and WHERE conditions for
one `(blocks, logs)` row pair.  `from_block` and `to_block` are bound
after the Rust cast `as i64`. -/
def logMatches (f t : Nat) (addresses : List Addr) (T : TopicSets)
    (b : BlockRow) (l : LogRow) : Bool :=
  decide (u64AsI64 f ≤ b.block_number) && decide (b.block_number ≤ u64AsI64 t) &&
    b.substrate_block_hash == l.substrate_block_hash &&
    b.is_canon == 1 &&
    (addresses.isEmpty || addresses.contains l.address) &&
    matchesTopic (T.get 0) l.topic_1 &&
    matchesTopic (T.get 1) l.topic_2 &&
    matchesTopic (T.get 2) l.topic_3 &&
    matchesTopic (T.get 3) l.topic_4

/-- The row shape selected by the statement and decoded into
`FilteredLog` by `filter_logs`. -/
structure FilteredLog where
  substrate_block_hash : Hash
  ethereum_block_hash : Hash
  block_number : Int
  ethereum_storage_schema : List Nat
  transaction_index : Int
  log_index : Int
deriving DecidableEq, Repr

/-- The SELECT projection for one joined row pair. -/
def mkFilteredLog (l : LogRow) (b : BlockRow) : FilteredLog :=
  ⟨l.substrate_block_hash, b.ethereum_block_hash, b.block_number,
    b.ethereum_storage_schema, l.transaction_index, l.log_index⟩

/-- `FROM logs AS l INNER JOIN blocks AS b ON ... WHERE ...`. -/
def joinRows (s : Store) (f t : Nat) (A : List Addr) (T : TopicSets) : List FilteredLog :=
  s.logs.flatMap fun l =>
    s.blocks.filterMap fun b =>
      if logMatches f t A T b l then some (mkFilteredLog l b) else none

/-- The GROUP BY key of the built statement. -/
def resultKey (r : FilteredLog) : Hash × Int × Int :=
  (r.substrate_block_hash, r.transaction_index, r.log_index)

/-- `GROUP BY l.substrate_block_hash, l.transaction_index, l.log_index`:
one representative row per key (the first in scan order). -/
def groupRowsAux (seen : List (Hash × Int × Int)) :
    List FilteredLog → List FilteredLog
  | [] => []
  | x :: xs =>
    if resultKey x ∈ seen then groupRowsAux seen xs
    else x :: groupRowsAux (resultKey x :: seen) xs

/-- The GROUP BY pass over the joined rows. -/
def groupRows (l : List FilteredLog) : List FilteredLog := groupRowsAux [] l

/-- `ORDER BY b.block_number ASC, l.transaction_index ASC,
l.log_index ASC` as a total Boolean order on result rows. -/
def rowLe (a b : FilteredLog) : Bool :=
  decide (a.block_number < b.block_number) ||
    (a.block_number == b.block_number &&
      (decide (a.transaction_index < b.transaction_index) ||
        (a.transaction_index == b.transaction_index &&
          decide (a.log_index ≤ b.log_index))))

/-- Insertion step of the sorting pass. -/
def insSorted (x : FilteredLog) : List FilteredLog → List FilteredLog
  | [] => [x]
  | y :: ys => if rowLe x y then x :: y :: ys else y :: insSorted x ys

/-- The ORDER BY pass (insertion sort; any sort realizes the clause). -/
def sortRows : List FilteredLog → List FilteredLog
  | [] => []
  | x :: xs => insSorted x (sortRows xs)

/-- `LIMIT 10001`, i.e. `MAX_RESULTS + 1`. -/
def queryLimit : Nat := 10001

/-- Denotation of the SQL statement produced by `build_query`, evaluated
over the store: join, filter, group, order, limit. -/
def execLogQuery (s : Store) (f t : Nat) (A : List Addr) (T : TopicSets) : List FilteredLog :=
  (sortRows (groupRows (joinRows s f t A T))).take queryLimit

/-- `filter_logs` on its database happy path: validate and normalize the
topic rows (before any connection is acquired), then evaluate the built
statement.  Fetch-loop failures and the progress handler are modelled
separately by `filterLogsFetchRun`. -/
def filter_logs (s : Store) (f t : Nat) (addresses : List Addr)
    (topics : List (List (Option Hash))) : Except String (List FilteredLog) :=
  match normalizeTopics topics with
  | .error e => .error e
  | .ok T => .ok (execLogQuery s f t addresses T)

/-- Concrete fixture for canonicalization: three blocks, the first
non-canon. -/
def wCanonStore : Store :=
  ⟨[⟨1, 10, 11, [3], 0⟩, ⟨2, 20, 21, [3], 1⟩, ⟨3, 30, 31, [3], 1⟩], [], [], []⟩

/-- Concrete fixture: one canon block at height 5. -/
def cexRangeBlock : BlockRow := ⟨5, 100, 200, [3], 1⟩

/-- Concrete fixture: one log in that block. -/
def cexRangeLog : LogRow := ⟨7, 0, 0, 0, 0, 0, 0, 200⟩

/-- Concrete fixture: the store holding them. -/
def cexRangeStore : Store := ⟨[cexRangeBlock], [], [cexRangeLog], []⟩

/-- The result row the query returns over `cexRangeStore`. -/
def cexRangeRow : FilteredLog := ⟨200, 100, 5, [3], 0, 0⟩

/-! ### build_query

`build_query` assembles the statement through a `sqlx::QueryBuilder`:
`push` appends raw SQL, `push_bind` appends one `?` placeholder and
records the bound value, and `separated(sep)` interleaves `sep` between
consecutive `push_bind`s. -/

/-- A bound SQL parameter value. -/
inductive BindValue
  | int (i : Int)
  | blob (b : List Nat)
deriving DecidableEq, Repr

/-- `H160::as_bytes().to_owned()`: an opaque injective byte encoding. -/
def addrBytes (a : Addr) : List Nat := [a]

/-- `H256::as_bytes().to_owned()`: an opaque injective byte encoding. -/
def hashBytes (h : Hash) : List Nat := [h]

/-- `sqlx::QueryBuilder<Sqlite>`: accumulated SQL text and bind list;
for SQLite each `push_bind` appends the `?` placeholder to the text. -/
structure QB where
  sql : String
  binds : List BindValue
deriving DecidableEq, Repr

/-- `QueryBuilder::push`. -/
def QB.push (q : QB) (s : String) : QB := { q with sql := q.sql ++ s }

/-- `QueryBuilder::push_bind` (and `Separated::push_unseparated` is just
`push`). -/
def QB.pushBind (q : QB) (v : BindValue) : QB :=
  { sql := q.sql ++ "?", binds := q.binds ++ [v] }

/-- `Separated::push_bind` for each element after the first: the
separator, then the bind. -/
def QB.pushSepBinds (q : QB) (sep : String) (vs : List BindValue) : QB :=
  vs.foldl (fun acc v => (acc.push sep).pushBind v) q

/-- `builder.separated(sep)` followed by one `push_bind` per value: the
first value has no leading separator. -/
def QB.pushBindList (q : QB) (sep : String) (vs : List BindValue) : QB :=
  match vs with
  | [] => q
  | v :: rest => (q.pushBind v).pushSepBinds sep rest

/-- One iteration of the topic loop of `build_query` for 0-based
position `i` (the column name uses `i + 1`), following the
`topic_options.len().cmp(&1)` match: `Greater` emits an `IN` list,
`Equal` emits an equality, `Less` emits nothing. -/
def pushTopicClause (q : QB) (i : Nat) (ts : List Hash) : QB :=
  match ts with
  | [] => q
  | [x] =>
    (q.push (" AND l.topic_" ++ toString (i + 1) ++ " = ")).pushBind
      (.blob (hashBytes x))
  | _ :: _ :: _ =>
    ((q.push (" AND l.topic_" ++ toString (i + 1) ++ " IN (")).pushBindList
        ", " (ts.map fun x => .blob (hashBytes x))).push ")"

/-- `build_query`: the exact sequence of builder operations of the
source, including the `as i64` casts on the block range. -/
def buildQuery (f t : Nat) (addresses : List Addr) (T : TopicSets) : QB :=
  let q := QB.mk "" []
  let q := q.push "\nSELECT\n\tl.substrate_block_hash,\n\tb.ethereum_block_hash,\n\tb.block_number,\n\tb.ethereum_storage_schema,\n\tl.transaction_index,\n\tl.log_index\nFROM logs AS l\nINNER JOIN blocks AS b\nON (b.block_number BETWEEN "
  let q := (q.pushBindList " AND " [.int (u64AsI64 f), .int (u64AsI64 t)]).push ")"
  let q := q.push " AND b.substrate_block_hash = l.substrate_block_hash"
  let q := q.push " AND b.is_canon = 1"
  let q := q.push "\nWHERE 1"
  let q :=
    if addresses.isEmpty then q
    else
      ((q.push " AND l.address IN (").pushBindList ", "
          (addresses.map fun a => .blob (addrBytes a))).push ")"
  let q := pushTopicClause q 0 (T.get 0)
  let q := pushTopicClause q 1 (T.get 1)
  let q := pushTopicClause q 2 (T.get 2)
  let q := pushTopicClause q 3 (T.get 3)
  q.push "\nGROUP BY l.substrate_block_hash, l.transaction_index, l.log_index\nORDER BY b.block_number ASC, l.transaction_index ASC, l.log_index ASC\nLIMIT 10001"

/-- `", ?"` repeated `n` times. -/
def commaReps : Nat → String
  | 0 => ""
  | n + 1 => ", ?" ++ commaReps n

/-- `n` placeholders separated by `", "`: `"?, ?, ..., ?"`. -/
def sqlPlaceholders : Nat → String
  | 0 => ""
  | n + 1 => "?" ++ commaReps n

/-- The address clause of the statement template: present exactly when
the address list is non-empty. -/
def addressClause (n : Nat) : String :=
  if n = 0 then "" else " AND l.address IN (" ++ sqlPlaceholders n ++ ")"

/-- The topic clause of the statement template for 0-based position `i`
with a set of `n` topics: nothing for `n = 0`, an equality for `n = 1`,
an `IN` list otherwise. -/
def topicClause (i n : Nat) : String :=
  if n = 0 then ""
  else if n = 1 then " AND l.topic_" ++ toString (i + 1) ++ " = ?"
  else " AND l.topic_" ++ toString (i + 1) ++ " IN (" ++ sqlPlaceholders n ++ ")"

/-- The fixed leading part of every built statement. -/
def sqlHeader : String := "\nSELECT\n\tl.substrate_block_hash,\n\tb.ethereum_block_hash,\n\tb.block_number,\n\tb.ethereum_storage_schema,\n\tl.transaction_index,\n\tl.log_index\nFROM logs AS l\nINNER JOIN blocks AS b\nON (b.block_number BETWEEN ? AND ?) AND b.substrate_block_hash = l.substrate_block_hash AND b.is_canon = 1\nWHERE 1"

/-- The fixed trailing part of every built statement. -/
def sqlFooter : String := "\nGROUP BY l.substrate_block_hash, l.transaction_index, l.log_index\nORDER BY b.block_number ASC, l.transaction_index ASC, l.log_index ASC\nLIMIT 10001"

/-! ### insert_block_metadata -/

/-- Result of `fp_consensus::find_log` on a header digest. -/
inductive FindLogResult
  | found (block_hash : Hash) (transaction_hashes : List Hash)
  | notFound
  | multipleLogs
deriving DecidableEq, Repr

/-- The chain-reader capability consumed by the metadata ingestor:
`header` yields the header's number when the header is found (`Err` and
`Ok(None)` from the client are both modelled as `none`, the code skips
either); `findLog` is the digest lookup; `hashAt` the canonical hash at
a height (`Err` behaves as `none` in the canon computation); `schemaOf`
the SCALE-encoded on-chain storage schema. -/
structure ChainClient where
  header : Hash → Option Nat
  findLog : Hash → FindLogResult
  hashAt : Nat → Option Hash
  schemaOf : Hash → List Nat

/-- The block metadata assembled by `insert_block_metadata_inner`. -/
structure BlockMetadata where
  substrate_block_hash : Hash
  block_number : Int
  post_block_hash : Hash
  post_transaction_hashes : List Hash
  schema : List Nat
  is_canon : Int
deriving DecidableEq, Repr

/-- Database-level errors of the embedding. -/
inductive DbError
  | uniqueViolation
  | invalidStatement
  | protocol (msg : String)
deriving DecidableEq, Repr

/-- `insert_block_metadata_inner`: per hash, skip silently when the
header is missing or the digest holds no log (`FindLogError::NotFound`);
abort the whole batch on `MultipleLogs`; compute `is_canon` by comparing
the canonical hash at the header's number against the hash itself. -/
def metadataForHashes (c : ChainClient) : List Hash → Except DbError (List BlockMetadata)
  | [] => .ok []
  | h :: rest =>
    match c.header h with
    | none => metadataForHashes c rest
    | some num =>
      match c.findLog h with
      | .notFound => metadataForHashes c rest
      | .multipleLogs => .error (.protocol "multiple logs")
      | .found bh txs =>
        let is_canon : Int :=
          match c.hashAt num with
          | some ih => if ih = h then 1 else 0
          | none => 0
        match metadataForHashes c rest with
        | .error e => .error e
        | .ok ms => .ok (⟨h, u32SatAsI32 num, bh, txs, c.schemaOf h, is_canon⟩ :: ms)

/-- `INSERT OR IGNORE INTO blocks`: a no-op when a row with the same
`(ethereum_block_hash, substrate_block_hash)` key exists. -/
def insertOrIgnoreBlock (r : BlockRow) (rows : List BlockRow) : List BlockRow :=
  if rows.any fun x =>
      x.ethereum_block_hash == r.ethereum_block_hash &&
        x.substrate_block_hash == r.substrate_block_hash
  then rows else rows ++ [r]

/-- `INSERT OR IGNORE INTO transactions`: a no-op when a row with the
same `(ethereum_transaction_hash, substrate_block_hash)` key exists. -/
def insertOrIgnoreTx (r : TxRow) (rows : List TxRow) : List TxRow :=
  if rows.any fun x =>
      x.ethereum_transaction_hash == r.ethereum_transaction_hash &&
        x.substrate_block_hash == r.substrate_block_hash
  then rows else rows ++ [r]

/-- The per-metadata statements of the transaction: the blocks insert,
then one transactions insert per post transaction hash, indexed by its
position. -/
def applyMetadataOne (m : BlockMetadata) (s : Store) : Store :=
  let s1 := { s with blocks :=
    (insertOrIgnoreBlock
      ⟨m.block_number, m.post_block_hash, m.substrate_block_hash, m.schema,
        m.is_canon⟩
      s.blocks) }
  m.post_transaction_hashes.enum.foldl
    (fun acc p =>
      { acc with transactions :=
        (insertOrIgnoreTx
          ⟨p.2, m.substrate_block_hash, m.post_block_hash, (p.1 : Int)⟩
          acc.transactions) })
    s1

/-- All blocks and transactions inserts of the batch, in order. -/
def applyMetadata (ms : List BlockMetadata) (s : Store) : Store :=
  ms.foldl (fun acc m => applyMetadataOne m acc) s

/-- One row of the plain (no `OR IGNORE`) `INSERT INTO sync_status`:
fails on the table's unique `substrate_block_hash` constraint. -/
def insertSyncStrict (h : Hash) (rows : List SyncRow) : Except DbError (List SyncRow) :=
  if rows.any fun x => x.substrate_block_hash == h then .error .uniqueViolation
  else .ok (rows ++ [⟨h, 0⟩])

/-- The single multi-row `INSERT INTO sync_status ... VALUES ...` built
with `QueryBuilder::push_values` over the whole input hash list: sqlx
documents that an empty value list produces invalid SQL, and any
unique-constraint conflict fails the whole statement. -/
def insertSyncAll (hashes : List Hash) (rows : List SyncRow) : Except DbError (List SyncRow) :=
  match hashes with
  | [] => .error .invalidStatement
  | _ => hashes.foldlM (fun acc h => insertSyncStrict h acc) rows

/-- The final statement of the transaction: the multi-row `sync_status`
insert over the whole input hash list. -/
def insertSyncPhase (hashes : List Hash) (s : Store) : Except DbError Store :=
  match insertSyncAll hashes s.sync_status with
  | .error e => .error e
  | .ok sync2 => .ok { s with sync_status := sync2 }

/-- `insert_block_metadata`: gather the batch metadata from the chain
reader, then in one transaction insert blocks and transactions rows
(`OR IGNORE`) and finally one `sync_status` row for every input hash
(without `OR IGNORE`).  An error rolls the transaction back, leaving the
store unchanged, and is returned to the caller. -/
def insert_block_metadata (c : ChainClient) (hashes : List Hash) (s : Store) :
    Except DbError Store :=
  match metadataForHashes c hashes with
  | .error e => .error e
  | .ok ms => insertSyncPhase hashes (applyMetadata ms s)

/-- Concrete chain reader for the replay counterexample: block hash 0
has a header at height 1, a post-hashes log (Ethereum block hash 77, one
transaction hash 88) and is canonical. -/
def c1Client : ChainClient :=
  ⟨fun _ => some 1, fun _ => .found 77 [88], fun _ => some 0, fun _ => [3]⟩

/-- The store produced by one `insert_block_metadata` run of `c1Client`
over hash 0 from the empty store. -/
def wMetaStore1 : Store :=
  ⟨[⟨1, 77, 0, [3], 1⟩], [⟨88, 0, 77, 0⟩], [], [⟨0, 0⟩]⟩

/-! ### insert_genesis_block_metadata -/

/-- The client capability consumed by `insert_genesis_block_metadata`:
`genesisHash` is `expect_block_hash_from_id(BlockId::Number(0))` with
`none` modelling its error; `headerExists` whether `client.header`
returns `Ok(Some(_))`; `hasApi` whether the runtime exposes
`EthereumRuntimeRPCApi` at block 0; `currentBlockHash` the Ethereum
genesis block hash obtained from `current_block`; `schemaBytes` the
encoded storage schema at the genesis hash. -/
structure GenesisClient where
  genesisHash : Option Hash
  headerExists : Hash → Bool
  hasApi : Bool
  currentBlockHash : Hash
  schemaBytes : List Nat

/-- `insert_genesis_block_metadata`: fail when the genesis hash cannot
be resolved; return `None` when the genesis header is absent; otherwise
return `Some(substrate genesis hash)`, additionally inserting the canon
genesis blocks row (`OR IGNORE`) when the runtime exposes the EVM RPC
API at block 0. -/
def insert_genesis_block_metadata (c : GenesisClient) (s : Store) :
    Except DbError (Option Hash × Store) :=
  match c.genesisHash with
  | none => .error (.protocol "Cannot resolve genesis hash")
  | some gh =>
    if c.headerExists gh then
      if c.hasApi then
        .ok (some gh,
          { s with blocks :=
            (insertOrIgnoreBlock ⟨0, c.currentBlockHash, gh, c.schemaBytes, 1⟩
              s.blocks) })
      else .ok (some gh, s)
    else .ok (none, s)

/-- A genesis client whose runtime does not expose the EVM RPC API at
block 0 although the genesis header exists. -/
def cexGenClient : GenesisClient := ⟨some 7, fun _ => true, false, 99, [3]⟩

/-- A genesis client whose genesis header is missing. -/
def wGenClientNoHeader : GenesisClient := ⟨some 7, fun _ => false, true, 99, [3]⟩

/-! ### block_hash and transaction_metadata: row decoding

These readers run a query and decode each returned row with
`row.try_get::<T, _>(i).unwrap_or_default()`; the hash columns are then
passed to `H256::from_slice`, which asserts a 32-byte slice. -/

/-- A dynamically-typed SQLite column value. -/
inductive ColValue
  | blob (b : List Nat)
  | intVal (i : Int)
  | nullVal
deriving DecidableEq, Repr

/-- `row.try_get::<Vec<u8>, _>`: succeeds only on a BLOB column. -/
def tryGetBytes : ColValue → Option (List Nat)
  | .blob b => some b
  | _ => none

/-- `row.try_get::<i32, _>`: succeeds only on an INTEGER column. -/
def tryGetInt : ColValue → Option Int
  | .intVal i => some i
  | _ => none

/-- Outcome of a computation that can panic. -/
inductive PanicOr (α : Type)
  | panicked
  | ok (a : α)
deriving DecidableEq, Repr

/-- `H256::from_slice`: requires exactly 32 bytes and panics
otherwise. -/
def h256FromSlice (b : List Nat) : PanicOr (List Nat) :=
  if b.length = 32 then .ok b else .panicked

/-- The per-row decoding of `block_hash`:
`H256::from_slice(&row.try_get::<Vec<u8>, _>(0).unwrap_or_default()[..])`. -/
def blockHashDecodeRow (col0 : ColValue) : PanicOr (List Nat) :=
  h256FromSlice ((tryGetBytes col0).getD [])

/-- The row map of `block_hash` over all fetched rows. -/
def blockHashRows : List ColValue → PanicOr (List (List Nat))
  | [] => .ok []
  | c :: rest =>
    match blockHashDecodeRow c with
    | .panicked => .panicked
    | .ok h =>
      match blockHashRows rest with
      | .panicked => .panicked
      | .ok hs => .ok (h :: hs)

/-- `block_hash`: `none` models a failed `fetch_all`, which `.ok()`
turns into `None` so the function returns `Ok(None)`; otherwise every
row's first column is decoded. -/
def block_hash (queryOutcome : Option (List ColValue)) :
    PanicOr (Option (List (List Nat))) :=
  match queryOutcome with
  | none => .ok none
  | some rows =>
    match blockHashRows rows with
    | .panicked => .panicked
    | .ok hs => .ok (some hs)

/-- One decoded `TransactionMetadata` row. -/
structure TxMeta where
  block_hash : List Nat
  ethereum_block_hash : List Nat
  ethereum_index : Int
deriving DecidableEq, Repr

/-- Per-row decoding of `transaction_metadata`: `H256::from_slice` on
the two hash columns (panics on non-32-byte bytes) and a defaulted
integer for the index column. -/
def txMetaDecodeRow (row : ColValue × ColValue × ColValue) : PanicOr TxMeta :=
  match h256FromSlice ((tryGetBytes row.1).getD []) with
  | .panicked => .panicked
  | .ok h1 =>
    match h256FromSlice ((tryGetBytes row.2.1).getD []) with
    | .panicked => .panicked
    | .ok h2 => .ok ⟨h1, h2, (tryGetInt row.2.2).getD 0⟩

/-- The row map of `transaction_metadata`. -/
def txMetaRows : List (ColValue × ColValue × ColValue) → PanicOr (List TxMeta)
  | [] => .ok []
  | r :: rest =>
    match txMetaDecodeRow r with
    | .panicked => .panicked
    | .ok m =>
      match txMetaRows rest with
      | .panicked => .panicked
      | .ok ms => .ok (m :: ms)

/-- `transaction_metadata`: a failed `fetch_all` is
`unwrap_or_default()`ed to the empty row list, so the function returns
`Ok` of the empty sequence; otherwise every row is decoded. -/
def transaction_metadata
    (queryOutcome : Option (List (ColValue × ColValue × ColValue))) :
    PanicOr (List TxMeta) :=
  txMetaRows (queryOutcome.getD [])

/-! ### filter_logs: fetch loop and the progress handler -/

/-- `EthereumStorageSchema`, a four-variant unit enum. -/
inductive StorageSchema
  | undefined
  | v1
  | v2
  | v3
deriving DecidableEq, Repr

/-- SCALE decoding of `EthereumStorageSchema`: one tag byte `0..3`
(remaining input is left unread); anything else fails. -/
def decodeSchema : List Nat → Option StorageSchema
  | 0 :: _ => some .undefined
  | 1 :: _ => some .v1
  | 2 :: _ => some .v2
  | 3 :: _ => some .v3
  | _ => none

/-- Connection-level events of one `filter_logs` execution, in order. -/
inductive FLEvent
  | installHandler
  | fetchQuery
  | removeHandler
deriving DecidableEq, Repr

/-- One raw row of the fetch stream: the six selected columns, with the
schema column as its raw bytes (which `filter_logs` SCALE-decodes). -/
structure RawRow where
  substrate_block_hash : Hash
  ethereum_block_hash : Hash
  block_number : Int
  schema_bytes : List Nat
  transaction_index : Int
  log_index : Int
deriving DecidableEq, Repr

/-- A decoded result row of the fetch-loop model. -/
structure DecodedRow where
  substrate_block_hash : Hash
  ethereum_block_hash : Hash
  block_number : Int
  ethereum_storage_schema : StorageSchema
  transaction_index : Int
  log_index : Int
deriving DecidableEq, Repr

/-- The `rows.try_next()` loop of `filter_logs`: rows are consumed in
order; a row whose schema bytes fail to decode propagates the decode
error immediately through `?` — skipping the later
`conn.remove_progress_handler()` call; end of stream (`Ok(None)`) or a
stream error (`Err`) break the loop, after which the handler is removed
and the error, if any, is returned.  The returned event list holds the
events the loop emits. -/
def fetchLoop (errAtEnd : Bool) :
    List RawRow → List DecodedRow → List FLEvent × Except String (List DecodedRow)
  | [], acc =>
    ([.removeHandler],
      if errAtEnd then .error "Failed to query sql db with statement"
      else .ok acc)
  | r :: rest, acc =>
    match decodeSchema r.schema_bytes with
    | none => ([], .error "Cannot decode EthereumStorageSchema for block")
    | some sch =>
      fetchLoop errAtEnd rest
        (acc ++ [⟨r.substrate_block_hash, r.ethereum_block_hash,
          r.block_number, sch, r.transaction_index, r.log_index⟩])

/-- The post-validation body of `filter_logs`: after the connection is
acquired, the progress handler is installed, then the fetch starts, then
the loop runs; the event list records the handler order. -/
def filterLogsFetchRun (rows : List RawRow) (errAtEnd : Bool) :
    List FLEvent × Except String (List DecodedRow) :=
  let r := fetchLoop errAtEnd rows []
  (FLEvent.installHandler :: FLEvent.fetchQuery :: r.1, r.2)

/-- A fetched row whose schema bytes are not a valid SCALE tag. -/
def cexBadSchemaRow : RawRow := ⟨200, 100, 5, [9], 0, 0⟩

/-! ### get_logs and index_pending_block_logs -/

/-- One emitted EVM log inside a receipt. -/
structure EthLog where
  address : Addr
  topics : List Hash
deriving DecidableEq, Repr

/-- `ethereum::ReceiptV3`: three variants unified on their `logs`
field. -/
inductive ReceiptV3
  | legacy (logs : List EthLog)
  | eip2930 (logs : List EthLog)
  | eip1559 (logs : List EthLog)
deriving DecidableEq, Repr

/-- The `Legacy(d) | EIP2930(d) | EIP1559(d) => &d.logs` projection. -/
def ReceiptV3.logs : ReceiptV3 → List EthLog
  | .legacy l => l
  | .eip2930 l => l
  | .eip1559 l => l

/-- A schema handler (`StorageOverride`): `current_receipts` per block
id. -/
structure SchemaHandler where
  current_receipts : Hash → Option (List ReceiptV3)

/-- `OverrideHandle`: schema-keyed handlers plus a fallback. -/
structure Overrides where
  schemas : StorageSchema → Option SchemaHandler
  fallback : SchemaHandler

/-- `get_logs`: for each claimed block hash, resolve the schema handler
(map lookup with fallback) and the receipts
(`current_receipts(..).unwrap_or_default()` — a missing result means
zero logs for the block), then flatten every receipt's logs into rows:
topics are taken positionally with absent positions filled by the zero
hash, and the indices are the enumeration positions. -/
def get_logs (schemaOf : Hash → StorageSchema) (ov : Overrides)
    (hashes : List Hash) : List LogRow :=
  hashes.flatMap fun h =>
    let handler := (ov.schemas (schemaOf h)).getD ov.fallback
    let receipts := (handler.current_receipts h).getD []
    receipts.enum.flatMap fun tr =>
      tr.2.logs.enum.map fun lg =>
        ⟨lg.2.address,
          lg.2.topics.getD 0 0, lg.2.topics.getD 1 0,
          lg.2.topics.getD 2 0, lg.2.topics.getD 3 0,
          (lg.1 : Int), (tr.1 : Int), h⟩

/-- The tables touched by the log ingestor. -/
structure SyncLogState where
  sync : List SyncRow
  logs : List LogRow
deriving DecidableEq, Repr

/-- The atomic claim statement `UPDATE sync_status SET status = 1 WHERE
substrate_block_hash IN (SELECT substrate_block_hash FROM sync_status
WHERE status = 0 LIMIT n) RETURNING substrate_block_hash`: select up to
`n` pending hashes, mark every row carrying one of them claimed, and
return them. -/
def claimSync (n : Nat) (rows : List SyncRow) : List Hash × List SyncRow :=
  let selected := ((rows.filter fun r => r.status == 0).take n).map
    fun r => r.substrate_block_hash
  (selected,
    rows.map fun r =>
      if r.substrate_block_hash ∈ selected then { r with status := 1 } else r)

/-- The unique key of the `logs` table. -/
def logKey (l : LogRow) : Int × Int × Hash :=
  (l.log_index, l.transaction_index, l.substrate_block_hash)

/-- `INSERT OR IGNORE INTO logs`: a no-op when a row with the same
`(log_index, transaction_index, substrate_block_hash)` key exists. -/
def insertOrIgnoreLog (l : LogRow) (rows : List LogRow) : List LogRow :=
  if rows.any fun x => decide (logKey x = logKey l) then rows else rows ++ [l]

/-- All log inserts of one batch, in order. -/
def insertLogsOrIgnore (ls : List LogRow) (rows : List LogRow) : List LogRow :=
  ls.foldl (fun acc l => insertOrIgnoreLog l acc) rows

/-- `index_pending_block_logs(N)` as one whole-transaction update:
claim, fetch and flatten receipts, insert with `OR IGNORE`, commit.
The surrounding function logs and swallows errors; no statement of this
model can fail. -/
def index_pending_block_logs (schemaOf : Hash → StorageSchema)
    (ov : Overrides) (n : Nat) (s : SyncLogState) : SyncLogState :=
  let c := claimSync n s.sync
  ⟨c.2, insertLogsOrIgnore (get_logs schemaOf ov c.1) s.logs⟩

/-- The per-execution progress of one `index_pending_block_logs` call:
not started, batch claimed (while the blocking `get_logs` worker runs),
or inserted and committed. -/
inductive ExecPhase
  | start
  | claimed (hashes : List Hash)
  | done (hashes : List Hash)
deriving DecidableEq, Repr

/-- One atomic database step of an execution: the claim statement, or
the inserts plus commit. -/
def stepExec (schemaOf : Hash → StorageSchema) (ov : Overrides) (n : Nat) :
    ExecPhase × SyncLogState → ExecPhase × SyncLogState
  | (.start, s) =>
    let c := claimSync n s.sync
    (.claimed c.1, ⟨c.2, s.logs⟩)
  | (.claimed c, s) =>
    (.done c, ⟨s.sync, insertLogsOrIgnore (get_logs schemaOf ov c) s.logs⟩)
  | (.done c, s) => (.done c, s)

/-- Two interleaved executions A and B over the shared state: `true`
schedules the next step of A, `false` of B. -/
def runSched (schemaOf : Hash → StorageSchema) (ov : Overrides) (n : Nat) :
    List Bool → ExecPhase → ExecPhase → SyncLogState →
      ExecPhase × ExecPhase × SyncLogState
  | [], a, b, s => (a, b, s)
  | true :: rest, a, b, s =>
    let r := stepExec schemaOf ov n (a, s)
    runSched schemaOf ov n rest r.1 b r.2
  | false :: rest, a, b, s =>
    let r := stepExec schemaOf ov n (b, s)
    runSched schemaOf ov n rest a r.1 r.2

/-- The rows of `xs` that an `OR IGNORE` insertion pass actually adds,
given the key set `ks` already present. -/
def addedRows : List LogRow → List (Int × Int × Hash) → List LogRow
  | [], _ => []
  | x :: xs, ks =>
    if logKey x ∈ ks then addedRows xs ks
    else x :: addedRows xs (logKey x :: ks)

/-- Concrete fixture for the missing-receipts scenario. -/
def wSchemaOf : Hash → StorageSchema := fun _ => .v3

/-- Overrides whose handlers never find receipts. -/
def wOverrides : Overrides := ⟨fun _ => none, ⟨fun _ => none⟩⟩

/-- A state with one pending block (hash 5) and no logs. -/
def wPendingState : SyncLogState := ⟨[⟨5, 0⟩], []⟩

/-- A state with two pending blocks and no logs. -/
def wTwoPendingState : SyncLogState := ⟨[⟨5, 0⟩, ⟨6, 0⟩], []⟩

/-- The pinned reference statement for the input `from = 100`,
`to = 500`, three addresses and topic sets of sizes `3, 2, 0, 1`. -/
def referenceQuerySql : String := "\nSELECT\n\tl.substrate_block_hash,\n\tb.ethereum_block_hash,\n\tb.block_number,\n\tb.ethereum_storage_schema,\n\tl.transaction_index,\n\tl.log_index\nFROM logs AS l\nINNER JOIN blocks AS b\nON (b.block_number BETWEEN ? AND ?) AND b.substrate_block_hash = l.substrate_block_hash AND b.is_canon = 1\nWHERE 1 AND l.address IN (?, ?, ?) AND l.topic_1 IN (?, ?, ?) AND l.topic_2 IN (?, ?) AND l.topic_4 = ?\nGROUP BY l.substrate_block_hash, l.transaction_index, l.log_index\nORDER BY b.block_number ASC, l.transaction_index ASC, l.log_index ASC\nLIMIT 10001"

end FrontierSql

namespace FrontierSql

/-- **C4** `canonicalize(retracted, enacted)` leaves `transactions`,
`logs` and `sync_status` untouched, and rewrites `blocks` row by row:
a row whose hash is in `enacted` ends with `is_canon = 1` (even when it
is also in `retracted`, because the retract update runs first), a row
whose hash is only in `retracted` ends with `is_canon = 0`, and a row
whose hash is in neither list is completely unchanged.  Either list may
be empty. -/
theorem canonicalize_flips_and_frames (retracted enacted : List Hash) (s : Store) :
    (canonicalize retracted enacted s).transactions = s.transactions ∧
    (canonicalize retracted enacted s).logs = s.logs ∧
    (canonicalize retracted enacted s).sync_status = s.sync_status ∧
    List.Forall₂
      (fun r r2 =>
        (r.substrate_block_hash ∈ enacted → r2 = { r with is_canon := 1 }) ∧
        (r.substrate_block_hash ∉ enacted → r.substrate_block_hash ∈ retracted →
          r2 = { r with is_canon := 0 }) ∧
        (r.substrate_block_hash ∉ retracted → r.substrate_block_hash ∉ enacted → r2 = r))
      s.blocks (canonicalize retracted enacted s).blocks := by
  refine ⟨rfl, rfl, rfl, ?_⟩
  show List.Forall₂ _ s.blocks (canonicalizeBlocks retracted enacted s.blocks)
  unfold canonicalizeBlocks
  rw [List.map_map, List.forall₂_map_right_iff, List.forall₂_same]
  intro r _
  by_cases he : r.substrate_block_hash ∈ enacted <;>
    by_cases hr : r.substrate_block_hash ∈ retracted <;>
    simp [Function.comp, he, hr]

/-- Witness for C4, matching the source's canonicalization test: retract
block 21 and enact block 11 over the three-block store. -/
theorem canonicalize_flips_and_frames_witness :
    (canonicalize [21] [11] wCanonStore).logs = wCanonStore.logs ∧
    (canonicalize [21] [11] wCanonStore).blocks =
      [⟨1, 10, 11, [3], 1⟩, ⟨2, 20, 21, [3], 0⟩, ⟨3, 30, 31, [3], 1⟩] := by
  have h := canonicalize_flips_and_frames [21] [11] wCanonStore
  exact ⟨h.2.1, by rfl⟩

/-! ### Lemmas on topic normalization -/

theorem mem_hsInsert (x y : Hash) (s : List Hash) :
    y ∈ hsInsert x s ↔ y = x ∨ y ∈ s := by
  unfold hsInsert
  split
  · rename_i hx
    constructor
    · exact fun h => Or.inr h
    · rintro (rfl | h)
      · exact hx
      · exact h
  · exact List.mem_cons

theorem TopicSets.get_empty (j : Nat) : TopicSets.empty.get j = [] := by
  rcases j with _ | _ | _ | j <;> rfl

theorem TopicSets.get_insertAt (t : TopicSets) (i : Nat) (h : Hash) (j : Nat)
    (hi : i < 4) (hj : j < 4) :
    (t.insertAt i h).get j = if j = i then hsInsert h (t.get i) else t.get j := by
  interval_cases i <;> interval_cases j <;>
    simp [TopicSets.insertAt, TopicSets.get]

theorem addTopicRow_error_of_long (row : List (Option Hash)) :
    ∀ t i, i ≤ 4 → 4 < i + row.length →
      addTopicRow t i row = .error invalidTopicMsg := by
  induction row with
  | nil =>
    intro t i hi hlen
    simp only [List.length_nil] at hlen
    omega
  | cons topic rest ih =>
    intro t i hi hlen
    by_cases h4 : i = 4
    · subst h4
      simp [addTopicRow]
    · simp only [List.length_cons] at hlen
      cases topic with
      | some h =>
        simp only [addTopicRow, h4, if_false]
        exact ih _ (i + 1) (by omega) (by omega)
      | none =>
        simp only [addTopicRow, h4, if_false]
        exact ih _ (i + 1) (by omega) (by omega)

theorem addTopicRow_ok_of_short (row : List (Option Hash)) :
    ∀ t i, i + row.length ≤ 4 → ∃ t2, addTopicRow t i row = .ok t2 := by
  induction row with
  | nil => exact fun t i _ => ⟨t, rfl⟩
  | cons topic rest ih =>
    intro t i hlen
    simp only [List.length_cons] at hlen
    have h4 : ¬ i = 4 := by omega
    cases topic with
    | some h =>
      simpa only [addTopicRow, h4, if_false] using
        ih (t.insertAt i h) (i + 1) (by omega)
    | none =>
      simpa only [addTopicRow, h4, if_false] using ih t (i + 1) (by omega)

theorem exists_getElem_cons (x : Option Hash) (rest : List (Option Hash))
    (h : Hash) (i j : Nat) :
    (∃ k, (x :: rest)[k]? = some (some h) ∧ j = i + k) ↔
      ((x = some h ∧ j = i) ∨ ∃ k, rest[k]? = some (some h) ∧ j = (i + 1) + k) := by
  constructor
  · rintro ⟨k, hk, rfl⟩
    cases k with
    | zero =>
      left
      simp only [List.getElem?_cons_zero, Option.some.injEq] at hk
      exact ⟨hk, by omega⟩
    | succ k =>
      right
      exact ⟨k, by simpa using hk, by omega⟩
  · rintro (⟨rfl, rfl⟩ | ⟨k, hk, rfl⟩)
    · exact ⟨0, by simp, by omega⟩
    · exact ⟨k + 1, by simpa using hk, by omega⟩

theorem addTopicRow_mem (row : List (Option Hash)) :
    ∀ t i T2, i ≤ 4 → addTopicRow t i row = .ok T2 →
      ∀ j h, j < 4 →
        (h ∈ T2.get j ↔
          h ∈ t.get j ∨ ∃ k, row[k]? = some (some h) ∧ j = i + k) := by
  induction row with
  | nil =>
    intro t i T2 _ hok j h _
    simp only [addTopicRow, Except.ok.injEq] at hok
    subst hok
    simp
  | cons topic rest ih =>
    intro t i T2 hi hok j h hj
    by_cases h4 : i = 4
    · subst h4
      simp [addTopicRow] at hok
    · have hi4 : i < 4 := by omega
      cases topic with
      | some h0 =>
        simp only [addTopicRow, h4, if_false] at hok
        rw [ih (t.insertAt i h0) (i + 1) T2 (by omega) hok j h hj,
          TopicSets.get_insertAt t i h0 j hi4 hj, exists_getElem_cons]
        by_cases hji : j = i
        · subst hji
          simp [mem_hsInsert]
          tauto
        · simp [hji]
      | none =>
        simp only [addTopicRow, h4, if_false] at hok
        rw [ih t (i + 1) T2 (by omega) hok j h hj, exists_getElem_cons]
        simp

theorem foldTopics_error (rows : List (List (Option Hash))) :
    ∀ t, (∃ row ∈ rows, 4 < row.length) →
      List.foldlM (fun t row => addTopicRow t 0 row) t rows =
        .error invalidTopicMsg := by
  induction rows with
  | nil => simp
  | cons row rest ih =>
    intro t hex
    rw [List.foldlM_cons]
    by_cases hrow : 4 < row.length
    · rw [addTopicRow_error_of_long row t 0 (by omega) (by omega)]
      rfl
    · have hrest : ∃ r ∈ rest, 4 < r.length := by
        rcases hex with ⟨r, hmem, hlen⟩
        rcases List.mem_cons.1 hmem with rfl | hmem2
        · exact absurd hlen hrow
        · exact ⟨r, hmem2, hlen⟩
      obtain ⟨t2, ht2⟩ := addTopicRow_ok_of_short row t 0 (by omega)
      rw [ht2]
      exact ih t2 hrest

theorem foldTopics_ok (rows : List (List (Option Hash))) :
    ∀ t, (∀ row ∈ rows, row.length ≤ 4) →
      ∃ T, List.foldlM (fun t row => addTopicRow t 0 row) t rows = .ok T := by
  induction rows with
  | nil => exact fun t _ => ⟨t, rfl⟩
  | cons row rest ih =>
    intro t hall
    obtain ⟨t2, ht2⟩ :=
      addTopicRow_ok_of_short row t 0 (by simpa using hall row (by simp))
    rw [List.foldlM_cons, ht2]
    exact ih t2 fun r hr => hall r (List.mem_cons_of_mem _ hr)

theorem foldTopics_mem (rows : List (List (Option Hash))) :
    ∀ t T, List.foldlM (fun t row => addTopicRow t 0 row) t rows = .ok T →
      ∀ j h, j < 4 →
        (h ∈ T.get j ↔ h ∈ t.get j ∨ ∃ row ∈ rows, row[j]? = some (some h)) := by
  induction rows with
  | nil =>
    intro t T hok j h _
    have hok2 : Except.ok t = Except.ok T := hok
    injection hok2 with h2
    subst h2
    simp
  | cons row rest ih =>
    intro t T hok j h hj
    rw [List.foldlM_cons] at hok
    cases hrow : addTopicRow t 0 row with
    | error e =>
      rw [hrow] at hok
      cases hok
    | ok t2 =>
      rw [hrow] at hok
      have hok2 : List.foldlM (fun t row => addTopicRow t 0 row) t2 rest = .ok T := hok
      rw [ih t2 T hok2 j h hj,
        addTopicRow_mem row t 0 t2 (by omega) hrow j h hj]
      constructor
      · rintro ((ht | ⟨k, hk, rfl⟩) | ⟨r, hr, hrj⟩)
        · exact Or.inl ht
        · exact Or.inr ⟨row, by simp, by simpa using hk⟩
        · exact Or.inr ⟨r, List.mem_cons_of_mem _ hr, hrj⟩
      · rintro (ht | ⟨r, hr, hrj⟩)
        · exact Or.inl (Or.inl ht)
        · rcases List.mem_cons.1 hr with rfl | hr2
          · exact Or.inl (Or.inr ⟨j, hrj, by omega⟩)
          · exact Or.inr ⟨r, hr2, hrj⟩

/-- **C5** A `filter_logs` request containing a topic row of length
greater than 4 fails with `"Invalid topic input. Maximum length is 4."`
before the store is consulted (the result does not depend on the store,
and no write is performed since the operation is a pure read); a request
whose rows all have length at most 4 is normalized into four positional
sets: `h` lands in `T[j]` exactly when some row has `Some(h)` at
position `j`, so `None` wildcards and duplicate hashes have no
effect. -/
theorem filter_logs_topic_validation (topics : List (List (Option Hash)))
    (s : Store) (f t : Nat) (A : List Addr) :
    ((∃ row ∈ topics, 4 < row.length) →
      filter_logs s f t A topics = .error invalidTopicMsg) ∧
    ((∀ row ∈ topics, row.length ≤ 4) →
      ∃ T, normalizeTopics topics = .ok T ∧
        filter_logs s f t A topics = .ok (execLogQuery s f t A T) ∧
        ∀ j, j < 4 → ∀ h : Hash,
          (h ∈ T.get j ↔ ∃ row ∈ topics, row[j]? = some (some h))) := by
  constructor
  · intro hex
    unfold filter_logs normalizeTopics
    rw [foldTopics_error topics TopicSets.empty hex]
  · intro hall
    obtain ⟨T, hT⟩ := foldTopics_ok topics TopicSets.empty hall
    refine ⟨T, hT, ?_, ?_⟩
    · unfold filter_logs normalizeTopics
      rw [hT]
    · intro j hj h
      rw [foldTopics_mem topics TopicSets.empty T hT j h hj,
        TopicSets.get_empty]
      simp

/-- Witness for C5: one request with a five-position topic row is
rejected with the exact error string. -/
theorem filter_logs_topic_validation_witness :
    filter_logs Store.empty 0 0 [] [[some 1, none, none, none, none]] =
      .error invalidTopicMsg :=
  (filter_logs_topic_validation [[some 1, none, none, none, none]]
      Store.empty 0 0 []).1
    ⟨[some 1, none, none, none, none], by simp, by decide⟩

/-! ### Lemmas on the query denotation -/

theorem mem_insSorted (x a : FilteredLog) (l : List FilteredLog) :
    a ∈ insSorted x l ↔ a = x ∨ a ∈ l := by
  induction l with
  | nil => simp [insSorted]
  | cons y ys ih =>
    unfold insSorted
    split
    · simp [List.mem_cons]
    · simp only [List.mem_cons, ih]
      tauto

theorem mem_sortRows (a : FilteredLog) (l : List FilteredLog) :
    a ∈ sortRows l ↔ a ∈ l := by
  induction l with
  | nil => simp [sortRows]
  | cons x xs ih => simp [sortRows, mem_insSorted, ih]

theorem mem_groupRowsAux :
    ∀ (l : List FilteredLog) (seen : List (Hash × Int × Int)),
      ∀ a ∈ groupRowsAux seen l, a ∈ l := by
  intro l
  induction l with
  | nil => simp [groupRowsAux]
  | cons x xs ih =>
    intro seen a ha
    unfold groupRowsAux at ha
    split at ha
    · exact List.mem_cons_of_mem _ (ih _ a ha)
    · rcases List.mem_cons.1 ha with rfl | ha2
      · exact List.mem_cons_self _ _
      · exact List.mem_cons_of_mem _ (ih _ a ha2)

theorem mem_groupRows :
    ∀ l : List FilteredLog, ∀ a ∈ groupRows l, a ∈ l :=
  fun l a ha => mem_groupRowsAux l [] a ha

theorem mem_joinRows (s : Store) (f t : Nat) (A : List Addr) (T : TopicSets)
    (r : FilteredLog) :
    r ∈ joinRows s f t A T ↔
      ∃ l ∈ s.logs, ∃ b ∈ s.blocks,
        logMatches f t A T b l = true ∧ r = mkFilteredLog l b := by
  unfold joinRows
  rw [List.mem_flatMap]
  constructor
  · rintro ⟨l, hl, hr⟩
    rcases List.mem_filterMap.1 hr with ⟨b, hb, hf⟩
    by_cases hm : logMatches f t A T b l
    · refine ⟨l, hl, b, hb, hm, ?_⟩
      simp only [hm, if_true, Option.some.injEq] at hf
      exact hf.symm
    · simp [hm] at hf
  · rintro ⟨l, hl, b, hb, hm, rfl⟩
    exact ⟨l, hl, List.mem_filterMap.2 ⟨b, hb, by simp [hm]⟩⟩

theorem matchesTopic_mem (tset : List Hash) (x : Hash)
    (h : matchesTopic tset x = true) (hne : tset ≠ []) : x ∈ tset := by
  match tset with
  | [] => exact absurd rfl hne
  | [y] =>
    simp only [matchesTopic, beq_iff_eq] at h
    simp [h]
  | y1 :: y2 :: ys =>
    simpa [matchesTopic] using h

theorem u64AsI64_of_lt (n : Nat) (h : n < 2 ^ 63) : u64AsI64 n = n := by
  unfold u64AsI64
  have h64 : n < 2 ^ 64 := lt_trans h (by norm_num)
  rw [Nat.mod_eq_of_lt h64]
  have h2 : n < 9223372036854775808 := by
    calc n < 2 ^ 63 := h
    _ = 9223372036854775808 := by norm_num
  simp [h2]

/-- **C2 (amended)** Every row returned by `filter_logs` comes from a
joined `(logs, blocks)` pair whose block is canon
(`is_canon = 1`) and joined on the substrate hash, whose block number
lies between `from_block as i64` and `to_block as i64` (in particular in
`[f, t]` whenever both bounds are below `2^63`, where the wrapping cast
is the identity), whose address is in the address list when that list is
non-empty, and whose positional topics are members of the corresponding
normalized topic set whenever that set is non-empty. -/
theorem filter_logs_soundness (s : Store) (f t : Nat) (A : List Addr)
    (topics : List (List (Option Hash))) (T : TopicSets)
    (rs : List FilteredLog) (r : FilteredLog)
    (hT : normalizeTopics topics = .ok T)
    (hrun : filter_logs s f t A topics = .ok rs) (hr : r ∈ rs) :
    ∃ l, l ∈ s.logs ∧ ∃ b, b ∈ s.blocks ∧ r = mkFilteredLog l b ∧
      b.is_canon = 1 ∧
      b.substrate_block_hash = l.substrate_block_hash ∧
      u64AsI64 f ≤ b.block_number ∧ b.block_number ≤ u64AsI64 t ∧
      (f < 2 ^ 63 → t < 2 ^ 63 →
        ((f : Int) ≤ b.block_number ∧ b.block_number ≤ (t : Int))) ∧
      (A ≠ [] → l.address ∈ A) ∧
      (∀ j, j < 4 → T.get j ≠ [] → logTopic l j ∈ T.get j) := by
  unfold filter_logs at hrun
  rw [hT] at hrun
  have hrs : execLogQuery s f t A T = rs := by
    injection hrun
  subst hrs
  have h1 : r ∈ sortRows (groupRows (joinRows s f t A T)) :=
    List.mem_of_mem_take hr
  have h2 : r ∈ groupRows (joinRows s f t A T) := (mem_sortRows r _).1 h1
  have h3 : r ∈ joinRows s f t A T := mem_groupRows _ r h2
  rcases (mem_joinRows s f t A T r).1 h3 with ⟨l, hl, b, hb, hm, rfl⟩
  unfold logMatches at hm
  simp only [Bool.and_eq_true, beq_iff_eq, decide_eq_true_eq,
    Bool.or_eq_true] at hm
  obtain ⟨⟨⟨⟨⟨⟨⟨⟨hfle, htle⟩, hsub⟩, hcanon⟩, haddr⟩, ht1⟩, ht2⟩, ht3⟩, ht4⟩ := hm
  refine ⟨l, hl, b, hb, rfl, hcanon, hsub, hfle, htle, ?_, ?_, ?_⟩
  · intro hf63 ht63
    rw [u64AsI64_of_lt f hf63] at hfle
    rw [u64AsI64_of_lt t ht63] at htle
    exact ⟨hfle, htle⟩
  · intro hA
    rcases haddr with hempty | hmem
    · exact absurd (List.isEmpty_iff.1 hempty) hA
    · simpa using hmem
  · intro j hj hne
    interval_cases j
    · exact matchesTopic_mem _ _ ht1 hne
    · exact matchesTopic_mem _ _ ht2 hne
    · exact matchesTopic_mem _ _ ht3 hne
    · exact matchesTopic_mem _ _ ht4 hne

/-- Witness for C2 (amended): over the concrete fixture store, the
returned row satisfies all the soundness facts. -/
theorem filter_logs_soundness_witness :
    ∃ l, l ∈ cexRangeStore.logs ∧ ∃ b, b ∈ cexRangeStore.blocks ∧
      cexRangeRow = mkFilteredLog l b ∧
      b.is_canon = 1 ∧
      b.substrate_block_hash = l.substrate_block_hash ∧
      u64AsI64 0 ≤ b.block_number ∧ b.block_number ≤ u64AsI64 10 ∧
      ((0 : Nat) < 2 ^ 63 → (10 : Nat) < 2 ^ 63 →
        (((0 : Nat) : Int) ≤ b.block_number ∧ b.block_number ≤ ((10 : Nat) : Int))) ∧
      (([] : List Addr) ≠ [] → l.address ∈ ([] : List Addr)) ∧
      (∀ j, j < 4 → TopicSets.empty.get j ≠ [] →
        logTopic l j ∈ TopicSets.empty.get j) :=
  filter_logs_soundness cexRangeStore 0 10 [] [] TopicSets.empty
    [cexRangeRow] cexRangeRow rfl rfl (by simp)

/-- **C2 (counterexample)** With `from_block = 2^63` the bound is bound
as the negative `i64` value `-2^63`, so a block at height 5 is returned
although `5` does not lie in the inclusive range `[2^63, 10]`: the
claimed `block_number ∈ [f, t]` fails as stated. -/
theorem filter_logs_range_counterexample :
    filter_logs cexRangeStore (2 ^ 63) 10 [] [] = .ok [cexRangeRow] ∧
    cexRangeRow.block_number = 5 ∧
    ¬ (((2 : Int) ^ 63 ≤ cexRangeRow.block_number ∧
        cexRangeRow.block_number ≤ 10)) := by
  refine ⟨rfl, rfl, ?_⟩
  decide

/-! ### Lemmas on the query builder -/

theorem str_append_empty (s : String) : s ++ "" = s := by
  simp

theorem QB.sql_push (q : QB) (s : String) : (q.push s).sql = q.sql ++ s := rfl

theorem QB.sql_pushBind (q : QB) (v : BindValue) :
    (q.pushBind v).sql = q.sql ++ "?" := rfl

theorem sql_pushSepBinds_comma :
    ∀ (vs : List BindValue) (q : QB),
      (q.pushSepBinds ", " vs).sql = q.sql ++ commaReps vs.length := by
  intro vs
  induction vs with
  | nil =>
    intro q
    show q.sql = q.sql ++ commaReps 0
    rw [commaReps, str_append_empty]
  | cons v rest ih =>
    intro q
    show (((q.push ", ").pushBind v).pushSepBinds ", " rest).sql = _
    rw [ih]
    show ((q.sql ++ ", ") ++ "?") ++ commaReps rest.length = _
    rw [String.append_assoc (q.sql ++ ", ") "?" (commaReps rest.length),
      String.append_assoc q.sql ", " ("?" ++ commaReps rest.length),
      ← String.append_assoc ", " "?" (commaReps rest.length)]
    rfl

theorem sql_pushBindList_comma (vs : List BindValue) (q : QB) :
    (q.pushBindList ", " vs).sql = q.sql ++ sqlPlaceholders vs.length := by
  cases vs with
  | nil =>
    show q.sql = q.sql ++ sqlPlaceholders 0
    rw [sqlPlaceholders, str_append_empty]
  | cons v rest =>
    show ((q.pushBind v).pushSepBinds ", " rest).sql = _
    rw [sql_pushSepBinds_comma]
    show (q.sql ++ "?") ++ commaReps rest.length = _
    rw [String.append_assoc]
    rfl

theorem sql_pushBindList_pair (q : QB) (v1 v2 : BindValue) :
    (q.pushBindList " AND " [v1, v2]).sql = q.sql ++ "? AND ?" := by
  show (((q.pushBind v1).push " AND ").pushBind v2).sql = _
  show ((q.sql ++ "?") ++ " AND ") ++ "?" = _
  rw [String.append_assoc (q.sql ++ "?") " AND " "?",
    String.append_assoc q.sql "?" (" AND " ++ "?")]
  rfl

theorem sql_pushTopicClause (q : QB) (i : Nat) (ts : List Hash) :
    (pushTopicClause q i ts).sql = q.sql ++ topicClause i ts.length := by
  match ts with
  | [] =>
    show q.sql = q.sql ++ topicClause i 0
    rw [topicClause, if_pos rfl, str_append_empty]
  | [x] =>
    show ((q.push (" AND l.topic_" ++ toString (i + 1) ++ " = ")).pushBind
        (.blob (hashBytes x))).sql = _
    rw [QB.sql_pushBind, QB.sql_push]
    show _ = q.sql ++ topicClause i 1
    rw [show topicClause i 1 = " AND l.topic_" ++ toString (i + 1) ++ " = ?" from rfl]
    rw [String.append_assoc q.sql (" AND l.topic_" ++ toString (i + 1) ++ " = ") "?",
      String.append_assoc (" AND l.topic_" ++ toString (i + 1)) " = " "?"]
    rfl
  | x :: y :: rest =>
    show ((((q.push (" AND l.topic_" ++ toString (i + 1) ++ " IN (")).pushBindList
        ", " ((x :: y :: rest).map fun z => BindValue.blob (hashBytes z))).push ")")).sql = _
    rw [QB.sql_push, sql_pushBindList_comma, QB.sql_push, List.length_map]
    rw [show topicClause i (x :: y :: rest).length =
        " AND l.topic_" ++ toString (i + 1) ++ " IN (" ++
          sqlPlaceholders (x :: y :: rest).length ++ ")" from by
      unfold topicClause
      simp]
    simp [String.append_assoc]

theorem sql_addressPart (q : QB) (addresses : List Addr) :
    (if addresses.isEmpty then q
      else ((q.push " AND l.address IN (").pushBindList ", "
          (addresses.map fun a => BindValue.blob (addrBytes a))).push ")").sql =
      q.sql ++ addressClause addresses.length := by
  cases addresses with
  | nil =>
    show q.sql = q.sql ++ addressClause 0
    rw [addressClause, if_pos rfl, str_append_empty]
  | cons a rest =>
    rw [if_neg (by simp)]
    rw [QB.sql_push, sql_pushBindList_comma, QB.sql_push, List.length_map]
    rw [show addressClause (a :: rest).length =
        " AND l.address IN (" ++ sqlPlaceholders (a :: rest).length ++ ")" from by
      unfold addressClause
      simp]
    simp [String.append_assoc]

/-- The built statement's text, in template form: the fixed header, an
address clause exactly when the address list is non-empty, one clause
per non-empty positional topic set (equality for singletons, `IN`
otherwise), and the fixed footer. -/
theorem buildQuery_sql_template (f t : Nat) (A : List Addr) (T : TopicSets) :
    (buildQuery f t A T).sql =
      sqlHeader ++ addressClause A.length ++ topicClause 0 (T.get 0).length ++
        topicClause 1 (T.get 1).length ++ topicClause 2 (T.get 2).length ++
        topicClause 3 (T.get 3).length ++ sqlFooter := by
  unfold buildQuery
  rw [QB.sql_push, sql_pushTopicClause, sql_pushTopicClause, sql_pushTopicClause,
    sql_pushTopicClause, sql_addressPart, QB.sql_push, QB.sql_push, QB.sql_push,
    QB.sql_push, sql_pushBindList_pair, QB.sql_push]
  rfl

/-- **C3** `build_query` is deterministic — two topic-set inputs holding
the same elements (in any iteration order, as a `HashSet` may present
them) yield byte-identical SQL text — and the text follows the fixed
template: the fixed header, an `l.address IN` clause exactly when the
address list is non-empty, for each position a `l.topic_i = ?` clause
when the set is a singleton and an `l.topic_i IN (...)` clause when it
has more elements and nothing when it is empty, in this fixed order, and
the statement always ends with `LIMIT 10001`. -/
theorem build_query_deterministic_and_templated (f t : Nat) (A : List Addr)
    (T : TopicSets) :
    (buildQuery f t A T).sql =
      sqlHeader ++ addressClause A.length ++ topicClause 0 (T.get 0).length ++
        topicClause 1 (T.get 1).length ++ topicClause 2 (T.get 2).length ++
        topicClause 3 (T.get 3).length ++ sqlFooter ∧
    (∀ T2 : TopicSets, (∀ j, j < 4 → (T.get j).Perm (T2.get j)) →
      (buildQuery f t A T).sql = (buildQuery f t A T2).sql) ∧
    (∃ p, (buildQuery f t A T).sql = p ++ "LIMIT 10001") := by
  refine ⟨buildQuery_sql_template f t A T, ?_, ?_⟩
  · intro T2 hperm
    rw [buildQuery_sql_template f t A T, buildQuery_sql_template f t A T2,
      (hperm 0 (by omega)).length_eq, (hperm 1 (by omega)).length_eq,
      (hperm 2 (by omega)).length_eq, (hperm 3 (by omega)).length_eq]
  · refine ⟨sqlHeader ++ addressClause A.length ++ topicClause 0 (T.get 0).length ++
        topicClause 1 (T.get 1).length ++ topicClause 2 (T.get 2).length ++
        topicClause 3 (T.get 3).length ++
        "\nGROUP BY l.substrate_block_hash, l.transaction_index, l.log_index\nORDER BY b.block_number ASC, l.transaction_index ASC, l.log_index ASC\n", ?_⟩
    rw [buildQuery_sql_template f t A T,
      show sqlFooter =
        "\nGROUP BY l.substrate_block_hash, l.transaction_index, l.log_index\nORDER BY b.block_number ASC, l.transaction_index ASC, l.log_index ASC\n" ++
          "LIMIT 10001" from rfl]
    simp [String.append_assoc]

/-- Witness for C3 at the pinned reference input of the source's
`test_query_should_be_generated_correctly`: two iteration orders of the
same topic sets both produce exactly the reference statement. -/
theorem build_query_deterministic_and_templated_witness :
    (∀ j, j < 4 → (TopicSets.get ⟨[1, 2, 3], [4, 5], [], [6]⟩ j).Perm
        (TopicSets.get ⟨[3, 1, 2], [5, 4], [], [6]⟩ j)) ∧
    (buildQuery 100 500 [1, 2, 3] ⟨[1, 2, 3], [4, 5], [], [6]⟩).sql =
      referenceQuerySql ∧
    (buildQuery 100 500 [1, 2, 3] ⟨[3, 1, 2], [5, 4], [], [6]⟩).sql =
      referenceQuerySql := by
  have hperm : ∀ j, j < 4 → (TopicSets.get ⟨[1, 2, 3], [4, 5], [], [6]⟩ j).Perm
      (TopicSets.get ⟨[3, 1, 2], [5, 4], [], [6]⟩ j) := by
    intro j hj
    interval_cases j <;> decide
  have h1 : (buildQuery 100 500 [1, 2, 3] ⟨[1, 2, 3], [4, 5], [], [6]⟩).sql =
      referenceQuerySql := by rfl
  refine ⟨hperm, h1, ?_⟩
  rw [← (build_query_deterministic_and_templated 100 500 [1, 2, 3]
      ⟨[1, 2, 3], [4, 5], [], [6]⟩).2.1 ⟨[3, 1, 2], [5, 4], [], [6]⟩ hperm]
  exact h1

/-! ### Lemmas on metadata ingestion -/

theorem foldTx_sync (m : BlockMetadata) :
    ∀ (l : List (Nat × Hash)) (acc : Store),
      (l.foldl
        (fun acc p =>
          { acc with transactions :=
            (insertOrIgnoreTx
              ⟨p.2, m.substrate_block_hash, m.post_block_hash, (p.1 : Int)⟩
              acc.transactions) })
        acc).sync_status = acc.sync_status := by
  intro l
  induction l with
  | nil => intro acc; rfl
  | cons p rest ih =>
    intro acc
    rw [List.foldl_cons, ih]

theorem applyMetadataOne_sync (m : BlockMetadata) (s : Store) :
    (applyMetadataOne m s).sync_status = s.sync_status := by
  unfold applyMetadataOne
  exact foldTx_sync m _ _

theorem applyMetadata_sync (ms : List BlockMetadata) :
    ∀ s : Store, (applyMetadata ms s).sync_status = s.sync_status := by
  induction ms with
  | nil => intro s; rfl
  | cons m rest ih =>
    intro s
    show (applyMetadata rest (applyMetadataOne m s)).sync_status = _
    rw [ih, applyMetadataOne_sync]

theorem insertSyncFold_mono :
    ∀ (hashes : List Hash) (rows rows2 : List SyncRow),
      List.foldlM (fun acc h => insertSyncStrict h acc) rows hashes = .ok rows2 →
      ∀ r ∈ rows, r ∈ rows2 := by
  intro hashes
  induction hashes with
  | nil =>
    intro rows rows2 hok r hr
    have h2 : Except.ok rows = Except.ok rows2 := hok
    injection h2 with h3
    subst h3
    exact hr
  | cons h rest ih =>
    intro rows rows2 hok r hr
    rw [List.foldlM_cons] at hok
    cases hstep : insertSyncStrict h rows with
    | error e => rw [hstep] at hok; cases hok
    | ok rows1 =>
      rw [hstep] at hok
      have hok2 : List.foldlM (fun acc h => insertSyncStrict h acc) rows1 rest =
          .ok rows2 := hok
      refine ih rows1 rows2 hok2 r ?_
      unfold insertSyncStrict at hstep
      split at hstep
      · cases hstep
      · injection hstep with h4
        subst h4
        exact List.mem_append_left _ hr

theorem insertSyncFold_mem :
    ∀ (hashes : List Hash) (rows rows2 : List SyncRow),
      List.foldlM (fun acc h => insertSyncStrict h acc) rows hashes = .ok rows2 →
      ∀ h ∈ hashes, ∃ r ∈ rows2, r.substrate_block_hash = h := by
  intro hashes
  induction hashes with
  | nil => intro rows rows2 _ h hmem; cases hmem
  | cons h rest ih =>
    intro rows rows2 hok h0 hmem
    rw [List.foldlM_cons] at hok
    cases hstep : insertSyncStrict h rows with
    | error e => rw [hstep] at hok; cases hok
    | ok rows1 =>
      rw [hstep] at hok
      have hok2 : List.foldlM (fun acc h => insertSyncStrict h acc) rows1 rest =
          .ok rows2 := hok
      rcases List.mem_cons.1 hmem with rfl | hmem2
      · have hnew : (⟨h0, 0⟩ : SyncRow) ∈ rows1 := by
          unfold insertSyncStrict at hstep
          split at hstep
          · cases hstep
          · injection hstep with h4
            subst h4
            exact List.mem_append_right _ (by simp)
        exact ⟨⟨h0, 0⟩, insertSyncFold_mono rest rows1 rows2 hok2 _ hnew, rfl⟩
      · exact ih rows1 rows2 hok2 h0 hmem2

theorem insertSyncFold_conflict :
    ∀ (hashes : List Hash) (rows : List SyncRow),
      (∃ h ∈ hashes, ∃ r ∈ rows, r.substrate_block_hash = h) →
      List.foldlM (fun acc h => insertSyncStrict h acc) rows hashes =
        .error .uniqueViolation := by
  intro hashes
  induction hashes with
  | nil =>
    rintro rows ⟨h, hmem, _⟩
    cases hmem
  | cons h rest ih =>
    intro rows hex
    rw [List.foldlM_cons]
    by_cases hc : (rows.any fun x => x.substrate_block_hash == h) = true
    · rw [show insertSyncStrict h rows = .error .uniqueViolation from by
        unfold insertSyncStrict
        rw [if_pos hc]]
      rfl
    · rw [show insertSyncStrict h rows = .ok (rows ++ [⟨h, 0⟩]) from by
        unfold insertSyncStrict
        rw [if_neg hc]]
      have hex2 : ∃ h2 ∈ rest, ∃ r ∈ rows ++ [(⟨h, 0⟩ : SyncRow)],
          r.substrate_block_hash = h2 := by
        rcases hex with ⟨h2, hmem, r, hr, hkey⟩
        rcases List.mem_cons.1 hmem with rfl | hmem2
        · exact absurd (List.any_eq_true.2 ⟨r, hr, by simp [hkey]⟩) hc
        · exact ⟨h2, hmem2, r, List.mem_append_left _ hr, hkey⟩
      exact ih (rows ++ [⟨h, 0⟩]) hex2

theorem insertSyncAll_ok_mem (hashes : List Hash) (rows rows2 : List SyncRow)
    (hok : insertSyncAll hashes rows = .ok rows2) :
    ∀ h ∈ hashes, ∃ r ∈ rows2, r.substrate_block_hash = h := by
  unfold insertSyncAll at hok
  cases hashes with
  | nil => cases hok
  | cons h rest => exact insertSyncFold_mem (h :: rest) rows rows2 hok

theorem insertSyncAll_conflict (hashes : List Hash) (rows : List SyncRow)
    (hne : hashes ≠ [])
    (hex : ∃ h ∈ hashes, ∃ r ∈ rows, r.substrate_block_hash = h) :
    insertSyncAll hashes rows = .error .uniqueViolation := by
  unfold insertSyncAll
  cases hashes with
  | nil => exact absurd rfl hne
  | cons h rest => exact insertSyncFold_conflict (h :: rest) rows hex

/-- **C1 (counterexample)** One concrete run of `insert_block_metadata`
succeeds, but replaying the very same batch fails with a
unique-constraint violation: the `sync_status` insert is not guarded by
`OR IGNORE`, so the second run does not complete without error. -/
theorem insert_block_metadata_counterexample :
    insert_block_metadata c1Client [0] Store.empty = .ok wMetaStore1 ∧
    insert_block_metadata c1Client [0] wMetaStore1 =
      .error .uniqueViolation := by
  exact ⟨rfl, rfl⟩

/-- **C1 (amended)** The blocks and transactions inserts are replay-safe
(`INSERT OR IGNORE`), but the `sync_status` insert is not: after any
successful `insert_block_metadata(H)` run, replaying the same batch
against the same chain reader fails with a unique-constraint violation
(and, the transaction being rolled back by the engine, the second run
leaves the store — hence the row set of a single run — unchanged). -/
theorem insert_block_metadata_eq_ok (c : ChainClient) (hashes : List Hash)
    (s : Store) (ms : List BlockMetadata)
    (hms : metadataForHashes c hashes = .ok ms) :
    insert_block_metadata c hashes s = insertSyncPhase hashes (applyMetadata ms s) := by
  unfold insert_block_metadata
  rw [hms]

theorem insertSyncPhase_eq_ok (hashes : List Hash) (s : Store)
    (sync2 : List SyncRow) (hsync : insertSyncAll hashes s.sync_status = .ok sync2) :
    insertSyncPhase hashes s = .ok { s with sync_status := sync2 } := by
  unfold insertSyncPhase
  rw [hsync]

theorem insertSyncPhase_eq_err (hashes : List Hash) (s : Store) (e : DbError)
    (hsync : insertSyncAll hashes s.sync_status = .error e) :
    insertSyncPhase hashes s = .error e := by
  unfold insertSyncPhase
  rw [hsync]

theorem insert_block_metadata_not_replayable (c : ChainClient)
    (hashes : List Hash) (s0 s1 : Store)
    (h1 : insert_block_metadata c hashes s0 = .ok s1) :
    insert_block_metadata c hashes s1 = .error .uniqueViolation := by
  cases hms : metadataForHashes c hashes with
  | error e =>
    rw [show insert_block_metadata c hashes s0 = .error e from by
      unfold insert_block_metadata
      rw [hms]] at h1
    cases h1
  | ok ms =>
    rw [insert_block_metadata_eq_ok c hashes s0 ms hms] at h1
    rw [insert_block_metadata_eq_ok c hashes s1 ms hms]
    cases hsync : insertSyncAll hashes (applyMetadata ms s0).sync_status with
    | error e =>
      rw [insertSyncPhase_eq_err hashes (applyMetadata ms s0) e hsync] at h1
      cases h1
    | ok sync2 =>
      rw [insertSyncPhase_eq_ok hashes (applyMetadata ms s0) sync2 hsync] at h1
      have hs1 : { applyMetadata ms s0 with sync_status := sync2 } = s1 := by
        injection h1
      have hne : hashes ≠ [] := by
        intro hempty
        subst hempty
        cases hsync
      have hsync1 : (applyMetadata ms s1).sync_status = sync2 := by
        rw [applyMetadata_sync, ← hs1]
      cases hashes with
      | nil => exact absurd rfl hne
      | cons h0 hrest =>
        have hex : ∃ h ∈ h0 :: hrest, ∃ r ∈ sync2,
            r.substrate_block_hash = h := by
          obtain ⟨r, hr, hkey⟩ :=
            insertSyncAll_ok_mem _ _ _ hsync h0 (by simp)
          exact ⟨h0, by simp, r, hr, hkey⟩
        rw [insertSyncPhase_eq_err (h0 :: hrest) (applyMetadata ms s1)
          .uniqueViolation (by
            rw [hsync1]
            exact insertSyncAll_conflict (h0 :: hrest) sync2 (by simp) hex)]

/-- Witness for C1 (amended): the concrete replay of the batch `[0]`
fails with the unique violation. -/
theorem insert_block_metadata_not_replayable_witness :
    insert_block_metadata c1Client [0] wMetaStore1 =
      .error .uniqueViolation :=
  insert_block_metadata_not_replayable c1Client [0] Store.empty wMetaStore1
    (by rfl)

/-! ### insert_genesis_block_metadata theorems -/

/-- **C7 (counterexample)** When the genesis header exists but the
runtime does not expose the EVM RPC API at block 0, the function still
returns `Some(substrate genesis hash)` (and inserts nothing) — it does
not return `None` as the claim states. -/
theorem insert_genesis_counterexample :
    insert_genesis_block_metadata cexGenClient Store.empty =
      .ok (some 7, Store.empty) ∧
    cexGenClient.hasApi = false :=
  ⟨rfl, rfl⟩

/-- **C7 (amended)** `insert_genesis_block_metadata` returns
`Some(substrate genesis hash)` exactly when the genesis header is found
(given the genesis hash resolves); the runtime-API probe only gates the
insertion of the canon genesis blocks row, not the returned value;
when the header is absent it returns `None` and inserts nothing. -/
theorem insert_genesis_spec (c : GenesisClient) (s : Store) (gh : Hash)
    (hg : c.genesisHash = some gh) :
    (c.headerExists gh = true →
      insert_genesis_block_metadata c s =
        .ok (some gh,
          if c.hasApi then
            { s with blocks :=
              (insertOrIgnoreBlock ⟨0, c.currentBlockHash, gh, c.schemaBytes, 1⟩
                s.blocks) }
          else s)) ∧
    (c.headerExists gh = false →
      insert_genesis_block_metadata c s = .ok (none, s)) ∧
    ((∃ x s2, insert_genesis_block_metadata c s = .ok (some x, s2)) ↔
      c.headerExists gh = true) := by
  by_cases hh : c.headerExists gh <;> by_cases ha : c.hasApi <;>
    simp [insert_genesis_block_metadata, hg, hh, ha]

/-- Witness for C7 (amended): a client with a missing genesis header
yields `Ok(None)` and leaves the store unchanged. -/
theorem insert_genesis_spec_witness :
    insert_genesis_block_metadata wGenClientNoHeader Store.empty =
      .ok (none, Store.empty) :=
  (insert_genesis_spec wGenClientNoHeader Store.empty 7 rfl).2.1 rfl

/-- **C8** At a stored row whose hash column holds a 10-byte blob,
`block_hash` (and likewise `transaction_metadata`) panics inside
`H256::from_slice` instead of degrading to a default: the
`unwrap_or_default()` feeds a non-32-byte slice into an asserting
constructor.  The whole-query-failure halves of the claim do hold:
`block_hash` returns `Ok(None)` and `transaction_metadata` returns
`Ok([])`. -/
theorem block_hash_decode_panics :
    block_hash (some [.blob (List.replicate 10 0)]) = .panicked ∧
    transaction_metadata
      (some [(.blob (List.replicate 10 0), .blob (List.replicate 32 0),
        .intVal 1)]) = .panicked ∧
    block_hash none = .ok none ∧
    transaction_metadata none = .ok [] :=
  ⟨rfl, rfl, rfl, rfl⟩

/-- **C6** On the row-decode-failure path the progress handler is NOT
removed: the `?` on the schema decode returns before
`conn.remove_progress_handler()`, so the event trace ends without a
removal, while the success, empty and database-error paths all remove
the handler after installing it before the fetch. -/
theorem filter_logs_handler_leak :
    (filterLogsFetchRun [cexBadSchemaRow] false).1 =
      [.installHandler, .fetchQuery] ∧
    FLEvent.removeHandler ∉ (filterLogsFetchRun [cexBadSchemaRow] false).1 ∧
    (filterLogsFetchRun [cexBadSchemaRow] false).2 =
      .error "Cannot decode EthereumStorageSchema for block" ∧
    (filterLogsFetchRun [] false).1 =
      [.installHandler, .fetchQuery, .removeHandler] ∧
    (filterLogsFetchRun [] true).1 =
      [.installHandler, .fetchQuery, .removeHandler] ∧
    (filterLogsFetchRun [⟨200, 100, 5, [3], 0, 0⟩] false).1 =
      [.installHandler, .fetchQuery, .removeHandler] := by
  refine ⟨rfl, ?_, rfl, rfl, rfl, rfl⟩
  decide

/-! ### Lemmas on log insertion and claiming -/

theorem any_logKey_iff (l : LogRow) (rows : List LogRow) :
    (rows.any fun x => decide (logKey x = logKey l)) = true ↔
      logKey l ∈ rows.map logKey := by
  rw [List.any_eq_true]
  constructor
  · rintro ⟨x, hx, hd⟩
    exact List.mem_map.2 ⟨x, hx, of_decide_eq_true hd⟩
  · intro hm
    rcases List.mem_map.1 hm with ⟨x, hx, hfx⟩
    exact ⟨x, hx, decide_eq_true hfx⟩

theorem addedRows_congr (xs : List LogRow) :
    ∀ ks1 ks2, (∀ k, k ∈ ks1 ↔ k ∈ ks2) →
      addedRows xs ks1 = addedRows xs ks2 := by
  induction xs with
  | nil => intro ks1 ks2 _; rfl
  | cons x xs ih =>
    intro ks1 ks2 hiff
    unfold addedRows
    by_cases hk : logKey x ∈ ks1
    · rw [if_pos hk, if_pos ((hiff _).1 hk)]
      exact ih ks1 ks2 hiff
    · rw [if_neg hk, if_neg (fun hc => hk ((hiff _).2 hc))]
      rw [ih (logKey x :: ks1) (logKey x :: ks2) (by
        intro k
        simp only [List.mem_cons]
        exact or_congr Iff.rfl (hiff k))]

theorem addedRows_cons (x : LogRow) (xs : List LogRow)
    (ks : List (Int × Int × Hash)) :
    addedRows (x :: xs) ks =
      if logKey x ∈ ks then addedRows xs ks
      else x :: addedRows xs (logKey x :: ks) := rfl

theorem insertLogsOrIgnore_eq (xs : List LogRow) :
    ∀ rows, insertLogsOrIgnore xs rows =
      rows ++ addedRows xs (rows.map logKey) := by
  induction xs with
  | nil => intro rows; simp [insertLogsOrIgnore, addedRows]
  | cons x xs ih =>
    intro rows
    show insertLogsOrIgnore xs (insertOrIgnoreLog x rows) = _
    rw [addedRows_cons]
    by_cases hk : logKey x ∈ rows.map logKey
    · rw [show insertOrIgnoreLog x rows = rows from by
        unfold insertOrIgnoreLog
        rw [if_pos ((any_logKey_iff x rows).2 hk)]]
      rw [ih rows, if_pos hk]
    · rw [show insertOrIgnoreLog x rows = rows ++ [x] from by
        unfold insertOrIgnoreLog
        rw [if_neg (fun hc => hk ((any_logKey_iff x rows).1 hc))]]
      rw [ih (rows ++ [x]), if_neg hk, List.append_assoc]
      congr 1
      rw [List.map_append]
      show [x] ++ addedRows xs (rows.map logKey ++ [logKey x]) = _
      rw [List.singleton_append]
      rw [addedRows_congr xs (rows.map logKey ++ [logKey x])
        (logKey x :: rows.map logKey) (by
          intro k
          simp [or_comm])]

theorem addedRows_sub (xs : List LogRow) :
    ∀ ks, ∀ x ∈ addedRows xs ks, x ∈ xs := by
  induction xs with
  | nil => intro ks x hx; cases hx
  | cons y xs ih =>
    intro ks x hx
    unfold addedRows at hx
    by_cases hk : logKey y ∈ ks
    · rw [if_pos hk] at hx
      exact List.mem_cons_of_mem _ (ih ks x hx)
    · rw [if_neg hk] at hx
      rcases List.mem_cons.1 hx with rfl | hx2
      · exact List.mem_cons_self _ _
      · exact List.mem_cons_of_mem _ (ih _ x hx2)

theorem addedRows_extraKeys (ys : List LogRow) :
    ∀ (ks extra : List (Int × Int × Hash)),
      (∀ y ∈ ys, logKey y ∉ extra) →
      addedRows ys (ks ++ extra) = addedRows ys ks := by
  induction ys with
  | nil => intro ks extra _; rfl
  | cons y ys ih =>
    intro ks extra hnot
    unfold addedRows
    by_cases hk : logKey y ∈ ks
    · rw [if_pos (List.mem_append_left _ hk), if_pos hk]
      exact ih ks extra fun z hz => hnot z (List.mem_cons_of_mem _ hz)
    · have hky : logKey y ∉ ks ++ extra := by
        intro hc
        rcases List.mem_append.1 hc with h1 | h2
        · exact hk h1
        · exact hnot y (List.mem_cons_self _ _) h2
      rw [if_neg hky, if_neg hk]
      congr 1
      rw [show logKey y :: (ks ++ extra) = (logKey y :: ks) ++ extra from rfl]
      exact ih (logKey y :: ks) extra fun z hz => hnot z (List.mem_cons_of_mem _ hz)

theorem insertLogs_comm_mem (xs ys rows : List LogRow)
    (hdisj : ∀ x ∈ xs, ∀ y ∈ ys, logKey x ≠ logKey y) (l : LogRow) :
    l ∈ insertLogsOrIgnore ys (insertLogsOrIgnore xs rows) ↔
      l ∈ insertLogsOrIgnore xs (insertLogsOrIgnore ys rows) := by
  have hys : ∀ y ∈ ys, logKey y ∉ (addedRows xs (rows.map logKey)).map logKey := by
    intro y hy hc
    rcases List.mem_map.1 hc with ⟨x, hx, hkeq⟩
    exact hdisj x (addedRows_sub xs _ x hx) y hy hkeq
  have hxs : ∀ x ∈ xs, logKey x ∉ (addedRows ys (rows.map logKey)).map logKey := by
    intro x hx hc
    rcases List.mem_map.1 hc with ⟨y, hy, hkeq⟩
    exact hdisj x hx y (addedRows_sub ys _ y hy) hkeq.symm
  rw [insertLogsOrIgnore_eq xs rows, insertLogsOrIgnore_eq ys rows,
    insertLogsOrIgnore_eq ys (rows ++ addedRows xs (rows.map logKey)),
    insertLogsOrIgnore_eq xs (rows ++ addedRows ys (rows.map logKey)),
    List.map_append, List.map_append,
    addedRows_extraKeys ys (rows.map logKey) _ hys,
    addedRows_extraKeys xs (rows.map logKey) _ hxs]
  simp only [List.mem_append]
  tauto

theorem insertOrIgnoreLog_nodupKeys (l : LogRow) (rows : List LogRow)
    (h : (rows.map logKey).Nodup) :
    ((insertOrIgnoreLog l rows).map logKey).Nodup := by
  unfold insertOrIgnoreLog
  by_cases hk : (rows.any fun x => decide (logKey x = logKey l)) = true
  · rw [if_pos hk]; exact h
  · rw [if_neg hk, List.map_append]
    simp only [List.map_cons, List.map_nil]
    rw [List.nodup_append]
    refine ⟨h, List.nodup_singleton _, ?_⟩
    intro a ha hb
    rcases List.mem_singleton.1 hb with rfl
    exact hk ((any_logKey_iff l rows).2 ha)

theorem insertLogsOrIgnore_nodupKeys (ls : List LogRow) :
    ∀ rows, (rows.map logKey).Nodup →
      ((insertLogsOrIgnore ls rows).map logKey).Nodup := by
  induction ls with
  | nil => intro rows h; exact h
  | cons l ls ih =>
    intro rows h
    exact ih (insertOrIgnoreLog l rows) (insertOrIgnoreLog_nodupKeys l rows h)

theorem claimSync_sel_mem (n : Nat) (rows : List SyncRow) :
    ∀ h ∈ (claimSync n rows).1,
      ∃ r ∈ rows, r.status = 0 ∧ r.substrate_block_hash = h := by
  intro h hmem
  rcases List.mem_map.1 hmem with ⟨r, hr, rfl⟩
  have hr2 := List.mem_of_mem_take hr
  have hr3 := List.mem_filter.1 hr2
  exact ⟨r, hr3.1, by simpa using hr3.2, rfl⟩

theorem claimTwice_disjoint (n : Nat) (rows : List SyncRow) :
    ∀ h ∈ (claimSync n (claimSync n rows).2).1, h ∉ (claimSync n rows).1 := by
  intro h hmem hc1
  obtain ⟨r, hr, hst, hkey⟩ := claimSync_sel_mem n (claimSync n rows).2 h hmem
  rcases List.mem_map.1 hr with ⟨r0, _, hmark⟩
  split at hmark
  · rw [← hmark] at hst
    simp at hst
  · next hm2 =>
    rw [← hmark] at hkey
    exact hm2 (hkey ▸ hc1)

theorem claimTwice_disjoint_sym (n : Nat) (rows : List SyncRow) :
    ∀ h ∈ (claimSync n rows).1, h ∉ (claimSync n (claimSync n rows).2).1 :=
  fun h hh hc => claimTwice_disjoint n rows h hc hh

theorem get_logs_hash (schemaOf : Hash → StorageSchema) (ov : Overrides)
    (hashes : List Hash) :
    ∀ l ∈ get_logs schemaOf ov hashes, l.substrate_block_hash ∈ hashes := by
  intro l hl
  rcases List.mem_flatMap.1 hl with ⟨h, hh, hinner⟩
  rcases List.mem_flatMap.1 hinner with ⟨tr, _, hmap⟩
  rcases List.mem_map.1 hmap with ⟨lg, _, rfl⟩
  exact hh

theorem get_logs_none (schemaOf : Hash → StorageSchema) (ov : Overrides)
    (h : Hash)
    (hrec : ((ov.schemas (schemaOf h)).getD ov.fallback).current_receipts h =
      none) :
    ∀ (hashes : List Hash), ∀ l ∈ get_logs schemaOf ov hashes,
      l.substrate_block_hash ≠ h := by
  intro hashes l hl heq
  rcases List.mem_flatMap.1 hl with ⟨h2, _, hinner⟩
  rcases List.mem_flatMap.1 hinner with ⟨tr, htr, hmap⟩
  rcases List.mem_map.1 hmap with ⟨lg, _, rfl⟩
  have hh2 : h2 = h := heq
  subst hh2
  simp [hrec] at htr

theorem getLogs_keys_disjoint (schemaOf : Hash → StorageSchema)
    (ov : Overrides) (hs1 hs2 : List Hash)
    (hdisj : ∀ h ∈ hs2, h ∉ hs1) :
    ∀ x ∈ get_logs schemaOf ov hs1, ∀ y ∈ get_logs schemaOf ov hs2,
      logKey x ≠ logKey y := by
  intro x hx y hy hk
  have hx2 := get_logs_hash schemaOf ov hs1 x hx
  have hy2 := get_logs_hash schemaOf ov hs2 y hy
  have hhash : x.substrate_block_hash = y.substrate_block_hash :=
    congrArg (fun p => p.2.2) hk
  exact hdisj _ hy2 (hhash ▸ hx2)

/-- **C10** When a claimed block's receipts cannot be obtained
(`current_receipts` yields `None`), `get_logs` silently treats the block
as having zero logs: `index_pending_block_logs` still commits (the
model's update is total — the caller logs and swallows errors, reporting
nothing), the block's `sync_status` row remains claimed (`status = 1`)
so no later pass ever indexes it, and no logs row for the block is
added. -/
theorem index_pending_skips_missing_receipts (schemaOf : Hash → StorageSchema)
    (ov : Overrides) (n : Nat) (s : SyncLogState) (h : Hash)
    (hclaim : h ∈ (claimSync n s.sync).1)
    (hrec : ((ov.schemas (schemaOf h)).getD ov.fallback).current_receipts h =
      none) :
    (∀ r ∈ (index_pending_block_logs schemaOf ov n s).sync,
      r.substrate_block_hash = h → r.status = 1) ∧
    (∀ l : LogRow, l.substrate_block_hash = h →
      (l ∈ (index_pending_block_logs schemaOf ov n s).logs ↔ l ∈ s.logs)) := by
  constructor
  · intro r hr hkey
    have hr2 : r ∈ (claimSync n s.sync).2 := hr
    rcases List.mem_map.1 hr2 with ⟨r0, _, hmark⟩
    split at hmark
    · rw [← hmark]
    · next hm2 =>
      rw [← hmark] at hkey
      exact absurd (hkey ▸ hclaim) hm2
  · intro l hkey
    show l ∈ insertLogsOrIgnore (get_logs schemaOf ov (claimSync n s.sync).1)
      s.logs ↔ _
    rw [insertLogsOrIgnore_eq]
    constructor
    · intro hmem
      rcases List.mem_append.1 hmem with hin | hadd
      · exact hin
      · exact absurd hkey
          (get_logs_none schemaOf ov h hrec _ l (addedRows_sub _ _ _ hadd))
    · intro hmem
      exact List.mem_append_left _ hmem

/-- Witness for C10: one pending block (hash 5) whose receipts are
missing ends claimed, with the logs table unchanged. -/
theorem index_pending_skips_missing_receipts_witness :
    (⟨5, 1⟩ : SyncRow).status = 1 ∧
    ((⟨7, 0, 0, 0, 0, 0, 0, 5⟩ : LogRow) ∈
        (index_pending_block_logs wSchemaOf wOverrides 10 wPendingState).logs ↔
      (⟨7, 0, 0, 0, 0, 0, 0, 5⟩ : LogRow) ∈ wPendingState.logs) := by
  have h := index_pending_skips_missing_receipts wSchemaOf wOverrides 10
    wPendingState 5 (by decide) rfl
  exact ⟨h.1 ⟨5, 1⟩ (by decide) rfl, h.2 ⟨7, 0, 0, 0, 0, 0, 0, 5⟩ rfl⟩

/-- **C9** For any interleaving of two `index_pending_block_logs(N)`
executions — each split into its two atomic database steps, the
`UPDATE ... RETURNING` claim and the insert+commit — both executions
finish, their claimed hash sets are disjoint (at-most-one-claimer), the
`OR IGNORE` inserts preserve key-uniqueness of the `logs` table (no
insert violates the unique constraint), and the final logs row set
equals that of one run followed by its sequential (idempotent) replay. -/
theorem index_pending_concurrent (schemaOf : Hash → StorageSchema)
    (ov : Overrides) (n : Nat) (s : SyncLogState) (sched : List Bool)
    (hlen : sched.length = 4) (hcnt : sched.count true = 2) :
    ∃ ca cb,
      (runSched schemaOf ov n sched .start .start s).1 = .done ca ∧
      (runSched schemaOf ov n sched .start .start s).2.1 = .done cb ∧
      (∀ h, h ∈ ca → h ∉ cb) ∧
      (∀ l, l ∈ (runSched schemaOf ov n sched .start .start s).2.2.logs ↔
        l ∈ (index_pending_block_logs schemaOf ov n
          (index_pending_block_logs schemaOf ov n s)).logs) ∧
      ((s.logs.map logKey).Nodup →
        ((runSched schemaOf ov n sched .start .start s).2.2.logs.map
          logKey).Nodup) := by
  have hdis21 := claimTwice_disjoint_sym n s.sync
  have hdis12 := claimTwice_disjoint n s.sync
  have hkdisj := getLogs_keys_disjoint schemaOf ov
    (claimSync n (claimSync n s.sync).2).1 (claimSync n s.sync).1 hdis21
  have hcomm : ∀ l : LogRow,
      l ∈ insertLogsOrIgnore (get_logs schemaOf ov (claimSync n s.sync).1)
        (insertLogsOrIgnore
          (get_logs schemaOf ov (claimSync n (claimSync n s.sync).2).1)
          s.logs) ↔
      l ∈ insertLogsOrIgnore
        (get_logs schemaOf ov (claimSync n (claimSync n s.sync).2).1)
        (insertLogsOrIgnore (get_logs schemaOf ov (claimSync n s.sync).1)
          s.logs) :=
    fun l => insertLogs_comm_mem _ _ s.logs hkdisj l
  have hnodSeq : (s.logs.map logKey).Nodup →
      ((insertLogsOrIgnore
        (get_logs schemaOf ov (claimSync n (claimSync n s.sync).2).1)
        (insertLogsOrIgnore (get_logs schemaOf ov (claimSync n s.sync).1)
          s.logs)).map logKey).Nodup :=
    fun h0 =>
      insertLogsOrIgnore_nodupKeys _ _ (insertLogsOrIgnore_nodupKeys _ _ h0)
  have hnodSwap : (s.logs.map logKey).Nodup →
      ((insertLogsOrIgnore (get_logs schemaOf ov (claimSync n s.sync).1)
        (insertLogsOrIgnore
          (get_logs schemaOf ov (claimSync n (claimSync n s.sync).2).1)
          s.logs)).map logKey).Nodup :=
    fun h0 =>
      insertLogsOrIgnore_nodupKeys _ _ (insertLogsOrIgnore_nodupKeys _ _ h0)
  rcases sched with _ | ⟨a, sched⟩
  · simp at hlen
  rcases sched with _ | ⟨b, sched⟩
  · simp at hlen
  rcases sched with _ | ⟨c, sched⟩
  · simp at hlen
  rcases sched with _ | ⟨d, sched⟩
  · simp at hlen
  have hnil : sched = [] := by
    have h4 : sched.length = 0 := by
      simp only [List.length_cons] at hlen
      omega
    exact List.eq_nil_of_length_eq_zero h4
  subst hnil
  cases a <;> cases b <;> cases c <;> cases d <;>
    first
      | exact absurd hcnt (by decide)
      | exact ⟨_, _, rfl, rfl, fun h hh => hdis21 h hh, fun l => Iff.rfl,
          hnodSeq⟩
      | exact ⟨_, _, rfl, rfl, fun h hh => hdis21 h hh, hcomm, hnodSwap⟩
      | exact ⟨_, _, rfl, rfl, fun h hh => hdis12 h hh, fun l => Iff.rfl,
          hnodSeq⟩
      | exact ⟨_, _, rfl, rfl, fun h hh => hdis12 h hh, hcomm, hnodSwap⟩

/-- Witness for C9: the interleaving A-claim, B-claim, A-insert,
B-insert over two pending blocks yields the same logs row membership as
the sequential run-and-replay. -/
theorem index_pending_concurrent_witness :
    ((⟨7, 0, 0, 0, 0, 0, 0, 5⟩ : LogRow) ∈
      (runSched wSchemaOf wOverrides 1 [true, false, true, false]
        .start .start wTwoPendingState).2.2.logs ↔
    (⟨7, 0, 0, 0, 0, 0, 0, 5⟩ : LogRow) ∈
      (index_pending_block_logs wSchemaOf wOverrides 1
        (index_pending_block_logs wSchemaOf wOverrides 1
          wTwoPendingState)).logs) := by
  obtain ⟨ca, cb, h1, h2, hdisj, hiff, hnd⟩ :=
    index_pending_concurrent wSchemaOf wOverrides 1 wTwoPendingState
      [true, false, true, false] (by decide) (by decide)
  exact hiff _

end FrontierSql
